import Mathlib

/-!
# Call session state machine of the chat frontend

A shallow embedding of `src/components/call/CallContext.jsx`,
`src/components/call/CallButton.jsx`, the socket handlers and button
handlers of `src/components/call/CallUI.jsx`, the peer connection manager
`src/components/call/useWebRTC.js`, and the timer texts `formatTime` of `CallUI`
and `formatDuration` of `src/components/ChatRoom.jsx`.

Modelling conventions.

* The five React state cells of `CallProvider` (`callState`, `callRoom`,
  `callHost`, `participants`, `isMuted`) are the fields of `CallCtx`.  The
  `setTimeout(resetCall, 800)` scheduled by `markEnded` is never cancelled in
  the source, so the context also counts the timers that are scheduled and have
  not fired yet (`pendingResets`).
* One handler invocation is one atomic transition: every `setX(...)` of the
  handler is applied, the functional `setParticipants` updaters in call order,
  and the handler reads the `callState` of the state it is applied to (the
  socket effect of `CallUI` re-subscribes on every change of `callState`).
* Socket ids, room codes and user names are strings.  A payload field
  `participants` that is absent defaults to `[]` in the source and is the empty
  list here; `hostName` may be absent (`none`).
* Calls into `useWebRTC` and `socket.emit` are recorded as a list of `Effect`s
  returned next to the new context.
-/

namespace CallModel

/-- The values of `callState`: "idle", "calling", "ringing", "in-call", "ended". -/
inductive CallState where
  | idle
  | calling
  | ringing
  | inCall
  | ended
  deriving DecidableEq, Repr

/-- A roster entry `{ id, name }` of the `participants` state array. -/
structure Participant where
  id : String
  name : String
  deriving DecidableEq, Repr

/-- An entry `{ id, username }` of the `participants` array of a relay payload. -/
structure ServerParticipant where
  id : String
  username : String
  deriving DecidableEq, Repr

/-- The state owned by `CallProvider`, with the number of pending reset timers. -/
structure CallCtx where
  callState : CallState
  callRoom : Option String
  callHost : Option String
  participants : List Participant
  isMuted : Bool
  pendingResets : Nat
  deriving DecidableEq, Repr

/-- The props of `CallButton` and `CallUI`: `socket` is `none` for a null socket
and `some id` for a socket whose `socket.id` is `id`. -/
structure Props where
  socket : Option String
  roomCode : String
  username : String
  deriving DecidableEq, Repr

/-- Calls made by the handlers into `useWebRTC` and `socket.emit`. -/
inductive Effect where
  | emitCallStart (roomCode username socketId : String)
  | emitCallAccept (roomCode username : String) (socketId : Option String)
  | emitCallLeave (roomCode : String)
  | emitCallMute (roomCode : String) (muted : Bool)
  | startCallTo (remoteSocketId : String)
  | muteLocalAudio (muted : Bool)
  | cleanup
  deriving DecidableEq, Repr

/-- The state `CallProvider` starts in. -/
def initial : CallCtx :=
  { callState := .idle, callRoom := none, callHost := none, participants := [],
    isMuted := false, pendingResets := 0 }

/-- The ids of a roster, in roster order. -/
def peerIds (r : List Participant) : List String :=
  r.map (fun p => p.id)

/-! ## CallContext.jsx -/

/-- The updater of `addParticipant`:
`prev.some((p) => p.id === id) ? prev : [...prev, { id, name: username }]`. -/
def addParticipant (prev : List Participant) (id username : String) : List Participant :=
  if prev.any (fun p => p.id == id) then prev else prev ++ [{ id := id, name := username }]

/-- The updater of `removeParticipant`: `prev.filter((p) => p.id !== id)`. -/
def removeParticipant (prev : List Participant) (id : String) : List Participant :=
  prev.filter (fun p => p.id != id)

/-- The loop `serverParticipants.forEach((p) => addParticipant(p.id, p.username))`. -/
def addServerParticipants (prev : List Participant) (sp : List ServerParticipant) :
    List Participant :=
  sp.foldl (fun r p => addParticipant r p.id p.username) prev

/-- The function `resetCall`. -/
def resetCall (s : CallCtx) : CallCtx :=
  { s with callState := .idle, callRoom := none, callHost := none, participants := [],
           isMuted := false }

/-- The function `joinCall(roomCode, socketId, username)`. -/
def joinCall (s : CallCtx) (roomCode socketId username : String) : CallCtx :=
  { s with callRoom := some roomCode,
           participants := addParticipant s.participants socketId username,
           callState := .inCall }

/-- The function `markEnded`: the state becomes "ended" and one more `resetCall`
timer is pending. -/
def markEnded (s : CallCtx) : CallCtx :=
  { s with callState := .ended, pendingResets := s.pendingResets + 1 }

/-- The function `toggleMute`. -/
def toggleMute (s : CallCtx) : CallCtx :=
  { s with isMuted := !s.isMuted }

/-- A pending `setTimeout` callback of `markEnded` fires: it runs `resetCall`.
Without a pending timer nothing happens. -/
def fireReset (s : CallCtx) : CallCtx :=
  if s.pendingResets = 0 then s
  else { resetCall s with pendingResets := s.pendingResets - 1 }

/-! ## CallUI.jsx: socket handlers (registered only when a socket is present;
`self` is `socket.id`) -/

/-- The handler `handleIncomingCall`. -/
def handleIncomingCall (self roomCode : String) (s : CallCtx)
    (caller callerId callRoomCode : String) (serverParticipants : List ServerParticipant) :
    CallCtx × List Effect :=
  if callRoomCode != roomCode then (s, [])
  else
    let s1 := { s with callHost := some caller, callRoom := some callRoomCode,
                       participants := addServerParticipants s.participants serverParticipants }
    if callerId == self then ({ s1 with callState := .calling }, [])
    else if s.callState != .inCall then ({ s1 with callState := .ringing }, [])
    else (s1, [])

/-- The expression `hostName || null`: an absent or empty name gives null. -/
def hostOrNull (hostName : Option String) : Option String :=
  match hostName with
  | none => none
  | some h => if h == "" then none else some h

/-- The handler `handleExistingCall`. -/
def handleExistingCall (self roomCode : String) (s : CallCtx)
    (callRoomCode : String) (hostName : Option String)
    (serverParticipants : List ServerParticipant) : CallCtx × List Effect :=
  if callRoomCode != roomCode then (s, [])
  else
    let s1 := { s with callHost := hostOrNull hostName, callRoom := some callRoomCode,
                       participants := addServerParticipants s.participants serverParticipants }
    if serverParticipants.any (fun p => p.id == self) then ({ s1 with callState := .inCall }, [])
    else if s.callState != .inCall then ({ s1 with callState := .ringing }, [])
    else (s1, [])

/-- The handler `handleUserJoined`: the effects are the `startCallTo(p.id)` calls,
in call order. -/
def handleUserJoined (self : String) (s : CallCtx)
    (socketId joinedUser : String) (serverParticipants : List ServerParticipant) :
    CallCtx × List Effect :=
  ({ s with participants := addParticipant s.participants socketId joinedUser,
            callState := .inCall },
   if socketId == self then
     (serverParticipants.filter (fun p => p.id != self)).map (fun p => Effect.startCallTo p.id)
   else [])

/-- The handler `handleUserLeft`; `if (!socketId) return;` is the test for the
empty string. -/
def handleUserLeft (self : String) (s : CallCtx)
    (socketId _leftUser : String) (roomEmpty : Bool) : CallCtx × List Effect :=
  if socketId == "" then (s, [])
  else
    let s1 := { s with participants := removeParticipant s.participants socketId }
    if roomEmpty then
      ({ markEnded s1 with callHost := none, callRoom := none }, [Effect.cleanup])
    else if socketId == self then
      ({ s1 with callState := .ringing }, [Effect.cleanup])
    else (s1, [])

/-- The handler `handleCallEnded`. -/
def handleCallEnded (s : CallCtx) : CallCtx × List Effect :=
  ({ markEnded s with callHost := none, callRoom := none }, [Effect.cleanup])

/-! ## Button handlers -/

/-- The handler `handleClick` of `CallButton`. -/
def handleClick (props : Props) (s : CallCtx) : CallCtx × List Effect :=
  match props.socket with
  | none => (s, [])
  | some self =>
    if s.callState == .idle || s.callState == .ended then
      ({ s with callHost := some props.username, callRoom := some props.roomCode,
                callState := .calling },
       [Effect.emitCallStart props.roomCode props.username self])
    else if s.callState == .ringing then
      (joinCall s props.roomCode self props.username,
       [Effect.emitCallAccept props.roomCode props.username (some self)])
    else (s, [])

/-- The handler `handleJoin` of `CallUI`. -/
def handleJoin (props : Props) (s : CallCtx) : CallCtx × List Effect :=
  match props.socket with
  | none => (s, [])
  | some self =>
    (joinCall s props.roomCode self props.username,
     [Effect.emitCallAccept props.roomCode props.username none])

/-- The handler `handleLeave` of `CallUI`. -/
def handleLeave (props : Props) (s : CallCtx) : CallCtx × List Effect :=
  match props.socket with
  | none => (s, [])
  | some _ => (s, [Effect.emitCallLeave props.roomCode])

/-- The handler `handleToggleMute` of `CallUI`. -/
def handleToggleMute (props : Props) (s : CallCtx) : CallCtx × List Effect :=
  let newMuted := !s.isMuted
  (toggleMute s,
   Effect.muteLocalAudio newMuted ::
     (match props.socket with
      | none => []
      | some _ => [Effect.emitCallMute props.roomCode newMuted]))

/-! ## Everything that can happen to one client -/

/-- Relay events, user gestures and the reset timer. -/
inductive Event where
  | incomingCall (caller callerId roomCode : String) (participants : List ServerParticipant)
  | callExisting (roomCode : String) (hostName : Option String)
      (participants : List ServerParticipant)
  | callUserJoined (socketId username : String) (participants : List ServerParticipant)
  | callUserLeft (socketId username : String) (roomEmpty : Bool)
  | callEnded
  | clickCallButton
  | clickJoin
  | clickLeave
  | clickMute
  | resetTimer
  deriving DecidableEq, Repr

/-- One transition of the client.  Relay events reach a handler only when a
socket is present.  The buttons follow the render conditions of the source: the
call button is disabled in "calling" and "in-call", Join is rendered only in
"ringing", Cancel/Leave only in "calling" and "in-call", Mute only in "in-call". -/
def step (props : Props) (s : CallCtx) (e : Event) : CallCtx × List Effect :=
  match e with
  | .incomingCall caller callerId room sp =>
    (match props.socket with
     | none => (s, [])
     | some self => handleIncomingCall self props.roomCode s caller callerId room sp)
  | .callExisting room hostName sp =>
    (match props.socket with
     | none => (s, [])
     | some self => handleExistingCall self props.roomCode s room hostName sp)
  | .callUserJoined socketId username sp =>
    (match props.socket with
     | none => (s, [])
     | some self => handleUserJoined self s socketId username sp)
  | .callUserLeft socketId username roomEmpty =>
    (match props.socket with
     | none => (s, [])
     | some self => handleUserLeft self s socketId username roomEmpty)
  | .callEnded =>
    (match props.socket with
     | none => (s, [])
     | some _ => handleCallEnded s)
  | .clickCallButton =>
    if s.callState == .calling || s.callState == .inCall then (s, []) else handleClick props s
  | .clickJoin =>
    if s.callState == .ringing then handleJoin props s else (s, [])
  | .clickLeave =>
    if s.callState == .calling || s.callState == .inCall then handleLeave props s else (s, [])
  | .clickMute =>
    if s.callState == .inCall then handleToggleMute props s else (s, [])
  | .resetTimer => (fireReset s, [])

/-- The context after a sequence of events. -/
def run (props : Props) (s : CallCtx) (es : List Event) : CallCtx :=
  es.foldl (fun acc e => (step props acc e).1) s

/-! ## Roster deltas taken on their own -/

/-- A participant-joined or participant-left roster event. -/
inductive RosterEvent where
  | joined (id name : String)
  | left (id : String)
  deriving DecidableEq, Repr

/-- A roster event applied with `addParticipant` / `removeParticipant`. -/
def applyRosterEvent (r : List Participant) (e : RosterEvent) : List Participant :=
  match e with
  | .joined id name => addParticipant r id name
  | .left id => removeParticipant r id

/-- A sequence of roster events applied in order. -/
def applyRosterEvents (r : List Participant) (es : List RosterEvent) : List Participant :=
  es.foldl applyRosterEvent r

/-- An operation on the context: an event, or a direct call of `joinCall` or
`resetCall` with arbitrary arguments. -/
inductive CtxOp where
  | event (e : Event)
  | joinCall (roomCode socketId username : String)
  | resetCall
  deriving DecidableEq, Repr

/-- One context operation. -/
def applyOp (props : Props) (s : CallCtx) (o : CtxOp) : CallCtx :=
  match o with
  | .event e => (step props s e).1
  | .joinCall roomCode socketId username => joinCall s roomCode socketId username
  | .resetCall => resetCall s

/-- A sequence of context operations, in order. -/
def applyOps (props : Props) (s : CallCtx) (os : List CtxOp) : CallCtx :=
  os.foldl (applyOp props) s

/-! ## useWebRTC.js

The hook's mutable cells are the fields of `Rtc`.  `RTCPeerConnection` objects
live in `conns` and are named by their position there; the `peersRef` map holds
such positions, so an object that leaves the map still exists.  An `await` that
can fail takes its result from an `Outcome`; a handler is run from its first
line to its last with no other handler in between. -/

/-- A session description, as relayed. -/
abbrev Sdp := String

/-- The `kind` of a media track. -/
inductive TrackKind where
  | audio
  | video
  deriving DecidableEq, Repr

/-- A `MediaStreamTrack`: `stopped` is set by `stop()`. -/
structure Track where
  id : String
  kind : TrackKind
  enabled : Bool
  stopped : Bool
  deriving DecidableEq, Repr

/-- A `MediaStream` with its tracks. -/
structure MediaStream where
  id : String
  tracks : List Track
  deriving DecidableEq, Repr

/-- An `RTCPeerConnection`: the ids of the tracks given to `addTrack`, the remote
id the `onicecandidate` closure forwards to (`none` for a null handler), whether
`ontrack` is set, whether `close()` ran, the two descriptions and the remote
candidates added. -/
structure PeerConnection where
  senders : List String
  onicecandidate : Option String
  ontrack : Bool
  closed : Bool
  localDescription : Option Sdp
  remoteDescription : Option Sdp
  candidates : List String
  deriving DecidableEq, Repr

/-- The state of `useWebRTC`: the `remoteStreams` state (stream ids),
`localStreamRef.current`, `peersRef.current` in insertion order, every connection
object created so far, the number of `getUserMedia` calls made so far, and the
streams dropped by `stopLocalStream`. -/
structure Rtc where
  remoteStreams : List String
  localStream : Option MediaStream
  peers : List (String × Nat)
  conns : List PeerConnection
  micRequests : Nat
  released : List MediaStream
  deriving DecidableEq, Repr

/-- What the awaited browser calls of one handler run give: the stream of
`getUserMedia` (`none`: it rejects), the results of `createOffer` and
`createAnswer` (`none`: they reject), and whether `setLocalDescription`,
`setRemoteDescription` and `addIceCandidate` succeed. -/
structure Outcome where
  userMedia : Option MediaStream
  offer : Option Sdp
  answer : Option Sdp
  setLocalOk : Bool
  setRemoteOk : Bool
  addCandidateOk : Bool
  deriving DecidableEq, Repr

/-- A `socket.emit` of `useWebRTC`. -/
inductive Signal where
  | callOffer (roomCode toId : String) (sdp : Sdp)
  | callAnswer (roomCode toId : String) (sdp : Sdp)
  | callIceCandidate (roomCode toId candidate : String)
  deriving DecidableEq, Repr

/-- The hook's state on mount. -/
def initialRtc : Rtc :=
  { remoteStreams := [], localStream := none, peers := [], conns := [], micRequests := 0,
    released := [] }

/-- The object made by `new RTCPeerConnection({ iceServers: ICE_SERVERS })`. -/
def newPeerConnection : PeerConnection :=
  { senders := [], onicecandidate := none, ontrack := false, closed := false,
    localDescription := none, remoteDescription := none, candidates := [] }

/-- The call `peersRef.current.get(k)` (`none` for undefined). -/
def peersGet (peers : List (String × Nat)) (k : String) : Option Nat :=
  (peers.find? (fun e => e.1 == k)).map (fun e => e.2)

/-- The call `peersRef.current.set(k, v)`: an existing key keeps its place. -/
def peersSet (peers : List (String × Nat)) (k : String) (v : Nat) : List (String × Nat) :=
  if peers.any (fun e => e.1 == k) then peers.map (fun e => if e.1 == k then (k, v) else e)
  else peers ++ [(k, v)]

/-- A mutation of the connection object at position `i`. -/
def updateConn (conns : List PeerConnection) (i : Nat) (f : PeerConnection → PeerConnection) :
    List PeerConnection :=
  match conns[i]? with
  | some pc => conns.set i (f pc)
  | none => conns

/-- The body of the loop of `closeAllPeers` for one connection. -/
def closePeer (pc : PeerConnection) : PeerConnection :=
  { pc with onicecandidate := none, ontrack := false, closed := true }

/-- The helper `stopLocalStream`. -/
def stopLocalStream (m : Rtc) : Rtc :=
  match m.localStream with
  | none => m
  | some s =>
    { m with localStream := none,
             released := m.released ++
               [{ s with tracks := s.tracks.map (fun t => { t with stopped := true }) }] }

/-- The helper `closeAllPeers`. -/
def closeAllPeers (m : Rtc) : Rtc :=
  { m with conns := m.peers.foldl (fun cs e => updateConn cs e.2 closePeer) m.conns,
           peers := [], remoteStreams := [] }

/-- The function `cleanup`. -/
def cleanup (m : Rtc) : Rtc :=
  stopLocalStream (closeAllPeers m)

/-- The function `ensureLocalStream`; `userMedia` is what `getUserMedia` gives if
it is called.  The second component is the stream returned (`none`: it throws). -/
def ensureLocalStream (m : Rtc) (userMedia : Option MediaStream) : Rtc × Option MediaStream :=
  match m.localStream with
  | some s => (m, some s)
  | none =>
    match userMedia with
    | none => ({ m with micRequests := m.micRequests + 1 }, none)
    | some s => ({ m with micRequests := m.micRequests + 1, localStream := some s }, some s)

/-- The function `createPeerConnection`, run to completion.  The second component
is the connection returned (`none`: it throws). -/
def createPeerConnection (m : Rtc) (remoteSocketId : String) (userMedia : Option MediaStream) :
    Rtc × Option Nat :=
  match peersGet m.peers remoteSocketId with
  | some i => (m, some i)
  | none =>
    let i := m.conns.length
    match ensureLocalStream { m with conns := m.conns ++ [newPeerConnection] } userMedia with
    | (m1, none) => (m1, none)
    | (m1, some localStream) =>
      ({ m1 with
           conns := updateConn m1.conns i (fun pc =>
             { pc with senders := pc.senders ++ localStream.tracks.map (fun t => t.id),
                       onicecandidate := some remoteSocketId, ontrack := true }),
           peers := peersSet m1.peers remoteSocketId i },
       some i)

/-- The `pc.onicecandidate` handler of connection `i` called with `event.candidate`. -/
def onicecandidate (socket : Option String) (roomCode : String) (m : Rtc) (i : Nat)
    (candidate : Option String) : List Signal :=
  match m.conns[i]? with
  | none => []
  | some pc =>
    match pc.onicecandidate, candidate, socket with
    | some toId, some c, some _ => [Signal.callIceCandidate roomCode toId c]
    | _, _, _ => []

/-- The `pc.ontrack` handler of connection `i` called with the ids of
`event.streams`. -/
def ontrack (m : Rtc) (i : Nat) (streams : List String) : Rtc :=
  match m.conns[i]? with
  | none => m
  | some pc =>
    if pc.ontrack then
      match streams with
      | [] => m
      | remoteStream :: _ =>
        if m.remoteStreams.any (fun s => s == remoteStream) then m
        else { m with remoteStreams := m.remoteStreams ++ [remoteStream] }
    else m

/-- The function `startCallTo`, run to completion. -/
def startCallTo (socket : Option String) (roomCode : String) (m : Rtc) (o : Outcome)
    (remoteSocketId : String) : Rtc × List Signal :=
  match socket with
  | none => (m, [])
  | some _ =>
    match createPeerConnection m remoteSocketId o.userMedia with
    | (m1, none) => (m1, [])
    | (m1, some i) =>
      match o.offer with
      | none => (m1, [])
      | some offer =>
        if o.setLocalOk then
          ({ m1 with conns := updateConn m1.conns i (fun pc =>
               { pc with localDescription := some offer }) },
           [Signal.callOffer roomCode remoteSocketId offer])
        else (m1, [])

/-- The function `muteLocalAudio`. -/
def muteLocalAudio (m : Rtc) (muted : Bool) : Rtc :=
  match m.localStream with
  | none => m
  | some s =>
    let tracks := s.tracks.map (fun t =>
      if t.kind = TrackKind.audio then { t with enabled := !muted } else t)
    { m with localStream := some { s with tracks := tracks } }

/-- The handler `handleOffer` (registered only when a socket is present), run to
completion. -/
def handleOffer (roomCode : String) (m : Rtc) (o : Outcome)
    (callRoom fromId : String) (sdp : Sdp) : Rtc × List Signal :=
  if callRoom != roomCode then (m, [])
  else
    match createPeerConnection m fromId o.userMedia with
    | (m1, none) => (m1, [])
    | (m1, some i) =>
      if o.setRemoteOk then
        let m2 := { m1 with conns := updateConn m1.conns i (fun pc =>
          { pc with remoteDescription := some sdp }) }
        match o.answer with
        | none => (m2, [])
        | some answer =>
          if o.setLocalOk then
            ({ m2 with conns := updateConn m2.conns i (fun pc =>
                 { pc with localDescription := some answer }) },
             [Signal.callAnswer roomCode fromId answer])
          else (m2, [])
      else (m1, [])

/-- The handler `handleAnswer`. -/
def handleAnswer (roomCode : String) (m : Rtc) (o : Outcome)
    (callRoom fromId : String) (sdp : Sdp) : Rtc × List Signal :=
  if callRoom != roomCode then (m, [])
  else
    match peersGet m.peers fromId with
    | none => (m, [])
    | some i =>
      if o.setRemoteOk then
        ({ m with conns := updateConn m.conns i (fun pc =>
             { pc with remoteDescription := some sdp }) }, [])
      else (m, [])

/-- The handler `handleIceCandidate`; a null `candidate` is `none`. -/
def handleIceCandidate (roomCode : String) (m : Rtc) (o : Outcome)
    (callRoom fromId : String) (candidate : Option String) : Rtc × List Signal :=
  if callRoom != roomCode then (m, [])
  else
    match peersGet m.peers fromId, candidate with
    | some i, some c =>
      if o.addCandidateOk then
        ({ m with conns := updateConn m.conns i (fun pc =>
             { pc with candidates := pc.candidates ++ [c] }) }, [])
      else (m, [])
    | _, _ => (m, [])

/-! ## CallUI.jsx: the context and the manager together -/

/-- What `CallUI` works on: the call context and the `useWebRTC` state. -/
structure Client where
  ctx : CallCtx
  rtc : Rtc
  deriving DecidableEq, Repr

/-- The calls `cleanup()` and `muteLocalAudio(m)` of an effect, which run inside
the handler.  A socket emit does not touch the manager.  A `startCallTo(id)` call
returns a promise: its steps are those of `startCallTo` and are not taken here. -/
def applyCall (m : Rtc) (f : Effect) : Rtc :=
  match f with
  | .cleanup => cleanup m
  | .muteLocalAudio muted => muteLocalAudio m muted
  | _ => m

/-- One event handled by `CallUI`: the context transition of `step`, and its
`cleanup` / `muteLocalAudio` calls applied to the manager in call order. -/
def clientStep (props : Props) (c : Client) (e : Event) : Client :=
  { ctx := (step props c.ctx e).1, rtc := (step props c.ctx e).2.foldl applyCall c.rtc }

/-- A scenario: "me" starts a call in room "r", B joins, "me" presses Mute while
no capture exists yet, and then B's call-offer is handled and the microphone is
acquired. -/
def mutedBeforeCapture : Client :=
  let props : Props := { socket := some "me", roomCode := "r", username := "u" }
  let c1 := clientStep props
    (clientStep props
      (clientStep props { ctx := initial, rtc := initialRtc } Event.clickCallButton)
      (Event.callUserJoined "B" "bob" [⟨"me", "u"⟩, ⟨"B", "bob"⟩]))
    Event.clickMute
  { ctx := c1.ctx,
    rtc := (handleOffer "r" c1.rtc
      { userMedia := some ⟨"mic", [⟨"t", TrackKind.audio, true, false⟩]⟩, offer := none,
        answer := some "answer", setLocalOk := true, setRemoteOk := true,
        addCandidateOk := true }
      "r" "B" "offerB").1 }

/-- The keys of the link map. -/
def peerKeys (peers : List (String × Nat)) : List String :=
  peers.map (fun e => e.1)

/-! ## useWebRTC.js: calls that overlap

`createPeerConnection` suspends once, at `await ensureLocalStream()`.  A call is
split there: `createPeerConnectionBegin` is the part that runs when the function
is called, `createPeerConnectionResume` the part that runs when the awaited
promise settles.  Other calls may run in between. -/

/-- A `createPeerConnection` call that has run up to its first suspension: it
returned the existing connection of the map; or it made connection `pc` and
`ensureLocalStream` returned the capture already held; or it made connection `pc`
and `getUserMedia` is in flight. -/
inductive Pending where
  | existing (pc : Nat)
  | haveStream (remoteSocketId : String) (pc : Nat) (localStream : MediaStream)
  | awaitingMedia (remoteSocketId : String) (pc : Nat)
  deriving DecidableEq, Repr

/-- The part of `createPeerConnection(remoteSocketId)` before its `await`. -/
def createPeerConnectionBegin (m : Rtc) (remoteSocketId : String) : Rtc × Pending :=
  match peersGet m.peers remoteSocketId with
  | some i => (m, Pending.existing i)
  | none =>
    let i := m.conns.length
    let m1 := { m with conns := m.conns ++ [newPeerConnection] }
    match m1.localStream with
    | some s => (m1, Pending.haveStream remoteSocketId i s)
    | none =>
      ({ m1 with micRequests := m1.micRequests + 1 }, Pending.awaitingMedia remoteSocketId i)

/-- The lines of `createPeerConnection` after the `await`: the tracks of
`localStream` are added to connection `i`, its two handlers are set and the map
entry is written. -/
def installLink (m : Rtc) (remoteSocketId : String) (i : Nat) (localStream : MediaStream) :
    Rtc × Option Nat :=
  ({ m with
       conns := updateConn m.conns i (fun pc =>
         { pc with senders := pc.senders ++ localStream.tracks.map (fun t => t.id),
                   onicecandidate := some remoteSocketId, ontrack := true }),
       peers := peersSet m.peers remoteSocketId i },
   some i)

/-- The part of a suspended `createPeerConnection` call that runs when its awaited
promise settles; `userMedia` is what `getUserMedia` gives when it was in flight. -/
def createPeerConnectionResume (m : Rtc) (k : Pending) (userMedia : Option MediaStream) :
    Rtc × Option Nat :=
  match k with
  | .existing i => (m, some i)
  | .haveStream remoteSocketId i localStream => installLink m remoteSocketId i localStream
  | .awaitingMedia remoteSocketId i =>
    match userMedia with
    | none => (m, none)
    | some s => installLink { m with localStream := some s } remoteSocketId i s

/-- Two overlapping `createPeerConnection(p)` calls: the second is called while
the first is suspended, then the first resumes with `u1` and the second with `u2`.
The result is the final manager and the connections the two calls return. -/
def overlappingCreate (m : Rtc) (p : String) (u1 u2 : Option MediaStream) :
    Rtc × Option Nat × Option Nat :=
  let b1 := createPeerConnectionBegin m p
  let b2 := createPeerConnectionBegin b1.1 p
  let r1 := createPeerConnectionResume b2.1 b1.2 u1
  let r2 := createPeerConnectionResume r1.1 b2.2 u2
  (r2.1, r1.2, r2.2)

/-- The part of `startCallTo(remoteSocketId)` before its first suspension (`none`:
it returned at `if (!socket) return;`). -/
def startCallToBegin (socket : Option String) (m : Rtc) (remoteSocketId : String) :
    Rtc × Option Pending :=
  match socket with
  | none => (m, none)
  | some _ =>
    ((createPeerConnectionBegin m remoteSocketId).1,
     some (createPeerConnectionBegin m remoteSocketId).2)

/-- The rest of a suspended `startCallTo(remoteSocketId)` call, from the moment
`createPeerConnection` resumes. -/
def startCallToResume (roomCode : String) (m : Rtc) (k : Pending) (o : Outcome)
    (remoteSocketId : String) : Rtc × List Signal :=
  match createPeerConnectionResume m k o.userMedia with
  | (m1, none) => (m1, [])
  | (m1, some i) =>
    match o.offer with
    | none => (m1, [])
    | some offer =>
      if o.setLocalOk then
        ({ m1 with conns := updateConn m1.conns i (fun pc =>
             { pc with localDescription := some offer }) },
         [Signal.callOffer roomCode remoteSocketId offer])
      else (m1, [])

/-- A `startCallTo(id)` promise of `CallUI` run to completion on a client:
`useWebRTC` holds no setter of the call context, so only the manager moves. -/
def clientStartCallTo (props : Props) (c : Client) (o : Outcome) (remoteSocketId : String) :
    Client × List Signal :=
  ({ ctx := c.ctx, rtc := (startCallTo props.socket props.roomCode c.rtc o remoteSocketId).1 },
   (startCallTo props.socket props.roomCode c.rtc o remoteSocketId).2)

/-- A scenario: "me" joins alice's call in room "r" and acquires the microphone
for the link to A, mutes, has its own leave acknowledged while alice remains
(state Ringing), joins again and acquires a fresh capture for the new link. -/
def mutedRejoin : Client :=
  let props : Props := { socket := some "me", roomCode := "r", username := "u" }
  let good (streamId trackId : String) : Outcome :=
    { userMedia := some ⟨streamId, [⟨trackId, TrackKind.audio, true, false⟩]⟩,
      offer := some "offer", answer := none, setLocalOk := true, setRemoteOk := true,
      addCandidateOk := true }
  let echo := Event.callUserJoined "me" "u" [⟨"A", "alice"⟩, ⟨"me", "u"⟩]
  let c1 := clientStep props
    (clientStep props { ctx := initial, rtc := initialRtc }
      (Event.incomingCall "alice" "A" "r" [⟨"A", "alice"⟩]))
    Event.clickJoin
  let c2 := (clientStartCallTo props (clientStep props c1 echo) (good "mic" "t") "A").1
  let c3 := clientStep props (clientStep props c2 Event.clickMute)
    (Event.callUserLeft "me" "u" false)
  let c4 := clientStep props (clientStep props c3 Event.clickJoin) echo
  (clientStartCallTo props c4 (good "mic2" "t2") "A").1

/-! ## The in-call timer text

`formatTime` and `formatDuration` compute with `Number`s, which are IEEE 754
doubles.  For a natural-number argument every value they meet is a non-negative
integer, `Infinity` or `NaN`; a finite one is held as the natural number it
equals.  A natural number or a quotient is rounded to the nearest double, ties to
even; `%` is exact; `toString` gives the shortest decimal text that reads back as
the same double. -/

/-- The method `s.padStart(targetLength, padString)`. -/
def padStart (s : String) (targetLength : Nat) (padString : String) : String :=
  if targetLength ≤ s.length ∨ padString.length = 0 then s
  else
    let fillLen := targetLength - s.length
    String.mk ((List.replicate fillLen padString.data).flatten.take fillLen) ++ s

/-- A `Number` met by the timer texts: a finite non-negative integer, `Infinity`
or `NaN`. -/
inductive JsNumber where
  | finite (value : Nat)
  | infinity
  | nan
  deriving DecidableEq, Repr

/-- The number of halvings that take `n` below 2, at most `fuel` of them. -/
def log2Fuel : Nat → Nat → Nat
  | 0, _ => 0
  | fuel + 1, n => if 2 ≤ n then log2Fuel fuel (n / 2) + 1 else 0

/-- The exponent of the highest power of two that is at most `n` (0 for `n = 0`). -/
def floorLog2 (n : Nat) : Nat :=
  log2Fuel n n

/-- The integer nearest to `a / b`, the even one when two are equally near. -/
def roundDiv (a b : Nat) : Nat :=
  if 2 * (a % b) < b then a / b
  else if b < 2 * (a % b) then a / b + 1
  else if a / b % 2 = 0 then a / b
  else a / b + 1

/-- The double nearest to the natural number `n` (53 significant bits, ties to
even), as a natural number; a result of 2^1024 or more stands for overflow. -/
def toDouble (n : Nat) : Nat :=
  if n < 2 ^ 53 then n
  else roundDiv n (2 ^ (floorLog2 n - 52)) * 2 ^ (floorLog2 n - 52)

/-- The `Number` a natural number denotes: its nearest double, `Infinity` when
that is 2^1024 (written 16^256) or more. -/
def numberOfNat (n : Nat) : JsNumber :=
  if toDouble n < 16 ^ 256 then JsNumber.finite (toDouble n) else JsNumber.infinity

/-- The value of `Math.floor(a / b)` for finite `a` and `b > 0` with
`a / b ≥ 2^-1022` or `a = 0`: the quotient is rounded to a double of 53
significant bits, then floored. -/
def floorQuot (a b : Nat) : Nat :=
  if a = 0 then 0
  else if b * 2 ^ 52 ≤ a then
    roundDiv a (b * 2 ^ floorLog2 (a / (b * 2 ^ 52))) * 2 ^ floorLog2 (a / (b * 2 ^ 52))
  else
    let e0 := floorLog2 (b * 2 ^ 52 / a)
    let e := if b * 2 ^ 52 ≤ a * 2 ^ e0 then e0 else e0 + 1
    roundDiv (a * 2 ^ e) b / 2 ^ e

/-- The expression `Math.floor(x / b)` for a positive integer `b`. -/
def floorDiv (x : JsNumber) (b : Nat) : JsNumber :=
  match x with
  | .finite a => JsNumber.finite (floorQuot a b)
  | .infinity => JsNumber.infinity
  | .nan => JsNumber.nan

/-- The expression `x % b` for a positive integer `b`. -/
def remainder (x : JsNumber) (b : Nat) : JsNumber :=
  match x with
  | .finite a => JsNumber.finite (a % b)
  | .infinity => JsNumber.nan
  | .nan => JsNumber.nan

/-- Of the two multiples `lo < hi` of `p` around `v`, the one that reads back as
the double `v`; the nearer one when both do, the one with the even multiplier when
they are equally near; `none` when neither does. -/
def pickShortest (v lo hi p : Nat) : Option Nat :=
  if toDouble lo = v ∧ toDouble hi = v then
    if v - lo < hi - v then some lo
    else if hi - v < v - lo then some hi
    else if lo / p % 2 = 0 then some lo
    else some hi
  else if toDouble lo = v then some lo
  else if toDouble hi = v then some hi
  else none

/-- The decimal with the fewest significant digits that reads back as the double
`v`: multiples of 10^j are tried for decreasing `j`. -/
def searchShortest (v : Nat) : Nat → Nat
  | 0 => v
  | j + 1 =>
    match pickShortest v (v / 10 ^ (j + 1) * 10 ^ (j + 1))
        (v / 10 ^ (j + 1) * 10 ^ (j + 1) + 10 ^ (j + 1)) (10 ^ (j + 1)) with
    | some c => c
    | none => searchShortest v j

/-- The shortest decimal that reads back as the positive double `v`. -/
def shortestDecimal (v : Nat) : Nat :=
  searchShortest v ((toString v).length - 1)

/-- The text of a `Number` of 10^21 or more: `d.ddd` and `e+` with the exponent. -/
def exponentForm (c : Nat) : String :=
  let sig := ((toString c).data.reverse.dropWhile (fun d => d == '0')).reverse
  match sig with
  | [] => "0"
  | [d] => String.mk [d] ++ "e+" ++ toString ((toString c).length - 1)
  | d :: rest => String.mk (d :: '.' :: rest) ++ "e+" ++ toString ((toString c).length - 1)

/-- The method `toString()` of a `Number` (also what a template literal inserts). -/
def numberToString (x : JsNumber) : String :=
  match x with
  | .finite 0 => "0"
  | .finite v =>
    if shortestDecimal v < 10 ^ 21 then toString (shortestDecimal v)
    else exponentForm (shortestDecimal v)
  | .infinity => "Infinity"
  | .nan => "NaN"

/-- The expression `x || 0`: `0` and `NaN` are falsy. -/
def orZero (x : JsNumber) : JsNumber :=
  match x with
  | .finite 0 => JsNumber.finite 0
  | .nan => JsNumber.finite 0
  | x => x

/-- The call `Math.floor(x)`: every value of `JsNumber` is an integer, `Infinity`
or `NaN`. -/
def mathFloor (x : JsNumber) : JsNumber :=
  x

/-- The call `Math.max(0, x)` for a non-negative `x`. -/
def mathMaxZero (x : JsNumber) : JsNumber :=
  match x with
  | .nan => JsNumber.nan
  | x => x

/-- The function `formatTime` of `CallUI`, called with the natural number `sec`. -/
def formatTime (sec : Nat) : String :=
  let m := floorDiv (numberOfNat sec) 60
  let s := remainder (numberOfNat sec) 60
  numberToString m ++ ":" ++ padStart (numberToString s) 2 "0"

/-- The function `formatDuration` of `ChatRoom`, called with the natural number
`seconds`. -/
def formatDuration (seconds : Nat) : String :=
  let s := mathMaxZero (mathFloor (orZero (numberOfNat seconds)))
  let m := floorDiv s 60
  let r := remainder s 60
  numberToString m ++ ":" ++ padStart (numberToString r) 2 "0"

/-- The text the specification describes: the decimal rendering of `sec / 60`, a
colon, and `sec % 60` as two decimal digits, in exact integer arithmetic. -/
def timerText (sec : Nat) : String :=
  toString (sec / 60) ++ ":" ++
    String.mk [Nat.digitChar (sec % 60 / 10), Nat.digitChar (sec % 60 % 10)]

/-- The number a list of decimal digit characters stands for. -/
def parseNat (cs : List Char) : Nat :=
  cs.foldl (fun acc c => acc * 10 + (c.toNat - '0'.toNat)) 0

/-- Reading a timer text back: the characters before the last three are the
minutes, the last two the seconds; the result is minutes * 60 + seconds. -/
def parseTime (text : String) : Nat :=
  parseNat (text.data.take (text.data.length - 3)) * 60 +
    parseNat (text.data.drop (text.data.length - 2))


/-! ## Roster lemmas -/

theorem any_id_iff (r : List Participant) (id : String) :
    r.any (fun p => p.id == id) = true ↔ id ∈ peerIds r := by
  simp only [peerIds, List.any_eq_true, List.mem_map, beq_iff_eq]

theorem mem_peerIds_addParticipant (r : List Participant) (id n x : String) :
    x ∈ peerIds (addParticipant r id n) ↔ x ∈ peerIds r ∨ x = id := by
  unfold addParticipant
  split
  · rename_i h
    rw [any_id_iff] at h
    constructor
    · intro hx; exact Or.inl hx
    · rintro (hx | rfl)
      · exact hx
      · exact h
  · simp [peerIds]

theorem mem_peerIds_removeParticipant (r : List Participant) (id x : String) :
    x ∈ peerIds (removeParticipant r id) ↔ x ∈ peerIds r ∧ x ≠ id := by
  simp only [peerIds, removeParticipant, List.mem_map, List.mem_filter, bne_iff_ne, ne_eq]
  constructor
  · rintro ⟨p, ⟨hp, hne⟩, rfl⟩
    exact ⟨⟨p, hp, rfl⟩, hne⟩
  · rintro ⟨⟨p, hp, rfl⟩, hne⟩
    exact ⟨p, ⟨hp, hne⟩, rfl⟩

theorem addParticipant_of_mem (r : List Participant) (id n : String)
    (h : id ∈ peerIds r) : addParticipant r id n = r := by
  unfold addParticipant
  rw [if_pos ((any_id_iff r id).2 h)]

theorem mem_peerIds_applyRosterEvents (es : List RosterEvent) :
    ∀ (r : List Participant) (x : String),
      (∀ id n, RosterEvent.joined id n ∈ es → RosterEvent.left id ∉ es) →
      (x ∈ peerIds (applyRosterEvents r es) ↔
        (∃ n, RosterEvent.joined x n ∈ es) ∨ (x ∈ peerIds r ∧ RosterEvent.left x ∉ es)) := by
  induction es with
  | nil => intro r x _; simp [applyRosterEvents]
  | cons e es ih =>
    intro r x hsep
    have hsep' : ∀ id n, RosterEvent.joined id n ∈ es → RosterEvent.left id ∉ es := by
      intro id n hj hl
      exact hsep id n (List.mem_cons_of_mem _ hj) (List.mem_cons_of_mem _ hl)
    have := ih (applyRosterEvent r e) x hsep'
    simp only [applyRosterEvents, List.foldl_cons] at this ⊢
    rw [this]
    cases e with
    | joined id n =>
      have hnl : RosterEvent.left id ∉ es := by
        intro hl
        exact hsep id n (List.mem_cons_self _ _) (List.mem_cons_of_mem _ hl)
      simp only [applyRosterEvent, mem_peerIds_addParticipant, List.mem_cons,
        RosterEvent.joined.injEq, reduceCtorEq, false_or]
      constructor
      · rintro (⟨m, hm⟩ | ⟨hx | rfl, hl⟩)
        · exact Or.inl ⟨m, Or.inr hm⟩
        · exact Or.inr ⟨hx, hl⟩
        · exact Or.inl ⟨n, Or.inl ⟨rfl, rfl⟩⟩
      · rintro (⟨m, ⟨rfl, rfl⟩ | hm⟩ | ⟨hx, hl⟩)
        · exact Or.inr ⟨Or.inr rfl, hnl⟩
        · exact Or.inl ⟨m, hm⟩
        · exact Or.inr ⟨Or.inl hx, hl⟩
    | left id =>
      simp only [applyRosterEvent, mem_peerIds_removeParticipant, List.mem_cons,
        reduceCtorEq, false_or, RosterEvent.left.injEq, not_or, ne_eq]
      tauto

/-! ## C1 -/

/-- C1, as stated, fails: joining then leaving ends without the peer, leaving
then joining ends with it, although the two sequences are permutations of each
other. -/
theorem roster_order_counterexample :
    List.Perm [RosterEvent.joined "a" "A", RosterEvent.left "a"]
        [RosterEvent.left "a", RosterEvent.joined "a" "A"] ∧
      "a" ∉ peerIds (applyRosterEvents [] [RosterEvent.joined "a" "A", RosterEvent.left "a"]) ∧
      "a" ∈ peerIds (applyRosterEvents [] [RosterEvent.left "a", RosterEvent.joined "a" "A"]) :=
  ⟨List.Perm.swap _ _ _, by decide, by decide⟩

/-- C1 (amended): for every initial roster and every sequence of participant-joined
and participant-left events in which no peerId is both joined and left, every
permutation of the sequence ends in a roster with the same set of peerIds. -/
theorem roster_order_independent (r : List Participant) (es es' : List RosterEvent)
    (hperm : es.Perm es')
    (hsep : ∀ id n, RosterEvent.joined id n ∈ es → RosterEvent.left id ∉ es) (x : String) :
    x ∈ peerIds (applyRosterEvents r es) ↔ x ∈ peerIds (applyRosterEvents r es') := by
  have hsep' : ∀ id n, RosterEvent.joined id n ∈ es' → RosterEvent.left id ∉ es' := by
    intro id n hj hl
    exact hsep id n (hperm.mem_iff.2 hj) (hperm.mem_iff.2 hl)
  rw [mem_peerIds_applyRosterEvents es r x hsep, mem_peerIds_applyRosterEvents es' r x hsep']
  simp only [hperm.mem_iff]

/-- Witness for C1 (amended): two joins and a leave of a third peer, reordered. -/
theorem roster_order_independent_witness :
    List.Perm [RosterEvent.joined "a" "A", RosterEvent.left "c", RosterEvent.joined "b" "B"]
        [RosterEvent.joined "b" "B", RosterEvent.joined "a" "A", RosterEvent.left "c"] ∧
      ("b" ∈ peerIds (applyRosterEvents [⟨"c", "C"⟩]
          [RosterEvent.joined "a" "A", RosterEvent.left "c", RosterEvent.joined "b" "B"]) ↔
        "b" ∈ peerIds (applyRosterEvents [⟨"c", "C"⟩]
          [RosterEvent.joined "b" "B", RosterEvent.joined "a" "A", RosterEvent.left "c"])) :=
  ⟨by decide,
   roster_order_independent [⟨"c", "C"⟩]
    [RosterEvent.joined "a" "A", RosterEvent.left "c", RosterEvent.joined "b" "B"]
    [RosterEvent.joined "b" "B", RosterEvent.joined "a" "A", RosterEvent.left "c"]
    (by decide)
    (by
      intro id n hj hl
      simp only [List.mem_cons, RosterEvent.joined.injEq, reduceCtorEq, List.mem_singleton,
        RosterEvent.left.injEq, false_or, or_false, List.not_mem_nil] at hj hl
      rcases hj with ⟨rfl, _⟩ | ⟨rfl, _⟩ <;> exact absurd hl (by decide))
    "b"⟩


/-! ## C2 -/

/-- C2: `addParticipant` is an idempotent union keyed by peerId: adding the same id
twice (with any names) equals adding it once, adding an id already in the roster
changes nothing, and after a local `joinCall(room, self, name)` the relay's echoed
call-user-joined for self leaves the whole context, in state InCall, unchanged. -/
theorem addParticipant_idempotent (r : List Participant) (id n n' : String)
    (s : CallCtx) (room self name name' : String) (sp : List ServerParticipant) :
    addParticipant (addParticipant r id n) id n' = addParticipant r id n ∧
      (id ∈ peerIds r → addParticipant r id n = r) ∧
      (joinCall s room self name).callState = CallState.inCall ∧
      (handleUserJoined self (joinCall s room self name) self name' sp).1 =
        joinCall s room self name := by
  refine ⟨?_, addParticipant_of_mem r id n, rfl, ?_⟩
  · exact addParticipant_of_mem _ id n'
      ((mem_peerIds_addParticipant r id n id).2 (Or.inr rfl))
  · have h : self ∈ peerIds (addParticipant s.participants self name) :=
      (mem_peerIds_addParticipant _ self name self).2 (Or.inr rfl)
    simp only [handleUserJoined, joinCall, addParticipant_of_mem _ self name' h]

/-- Witness for C2: a second join of "a" under another name, a join of a listed
peer, and the echo after a local join from Ringing. -/
theorem addParticipant_idempotent_witness :
    "a" ∈ peerIds [⟨"a", "A"⟩] ∧
      addParticipant [⟨"a", "A"⟩] "a" "A2" = [⟨"a", "A"⟩] ∧
      (handleUserJoined "me" (joinCall { initial with callState := CallState.ringing } "r" "me" "u")
          "me" "u2" [⟨"a", "A"⟩, ⟨"me", "u"⟩]).1 =
        joinCall { initial with callState := CallState.ringing } "r" "me" "u" :=
  have h := addParticipant_idempotent [⟨"a", "A"⟩] "a" "A2" "A3"
    { initial with callState := CallState.ringing } "r" "me" "u" "u2" [⟨"a", "A"⟩, ⟨"me", "u"⟩]
  ⟨by decide, h.2.1 (by decide), h.2.2.2⟩

/-! ## C3 -/

theorem nodup_addParticipant (r : List Participant) (id n : String)
    (h : (peerIds r).Nodup) : (peerIds (addParticipant r id n)).Nodup := by
  unfold addParticipant
  split
  · exact h
  · rename_i hany
    rw [any_id_iff] at hany
    simp only [peerIds, List.map_append, List.map_cons, List.map_nil]
    rw [List.nodup_append]
    refine ⟨h, List.nodup_singleton _, ?_⟩
    intro a ha hb
    rw [List.mem_singleton] at hb
    subst hb
    exact hany ha

theorem nodup_removeParticipant (r : List Participant) (id : String)
    (h : (peerIds r).Nodup) : (peerIds (removeParticipant r id)).Nodup := by
  unfold peerIds removeParticipant at *
  exact (List.filter_sublist r).map _ |>.nodup h

theorem nodup_addServerParticipants (sp : List ServerParticipant) :
    ∀ r : List Participant, (peerIds r).Nodup →
      (peerIds (addServerParticipants r sp)).Nodup := by
  induction sp with
  | nil => intro r h; exact h
  | cons p sp ih =>
    intro r h
    simp only [addServerParticipants, List.foldl_cons]
    exact ih _ (nodup_addParticipant r p.id p.username h)

theorem nodup_step (props : Props) (s : CallCtx) (e : Event)
    (h : (peerIds s.participants).Nodup) :
    (peerIds (step props s e).1.participants).Nodup := by
  have hnil : (peerIds ([] : List Participant)).Nodup := List.nodup_nil
  cases e <;> simp only [step] <;> cases props.socket <;>
    simp only [handleIncomingCall, handleExistingCall, handleUserJoined, handleUserLeft,
      handleCallEnded, handleClick, handleJoin, handleLeave, handleToggleMute, fireReset,
      resetCall, joinCall, markEnded, toggleMute] <;>
    (repeat' split) <;>
    first
      | exact h
      | exact hnil
      | exact nodup_addParticipant _ _ _ h
      | exact nodup_removeParticipant _ _ h
      | exact nodup_addServerParticipants _ _ h

theorem nodup_applyOps (props : Props) (os : List CtxOp) :
    ∀ s : CallCtx, (peerIds s.participants).Nodup →
      (peerIds (applyOps props s os).participants).Nodup := by
  induction os with
  | nil => intro s h; exact h
  | cons o os ih =>
    intro s h
    simp only [applyOps, List.foldl_cons]
    apply ih
    cases o with
    | event e => exact nodup_step props s e h
    | joinCall roomCode socketId username => exact nodup_addParticipant _ _ _ h
    | resetCall => exact List.nodup_nil

/-- C3: starting from any context whose roster is empty, every sequence of relay
handlers, user gestures, reset timers, `joinCall` and `resetCall` calls leaves a
roster whose peerIds are pairwise distinct, whatever the payloads list. -/
theorem roster_ids_nodup (props : Props) (s : CallCtx) (os : List CtxOp) :
    (peerIds (applyOps props { s with participants := [] } os).participants).Nodup :=
  nodup_applyOps props os _ List.nodup_nil


/-! ## C4 -/

theorem mem_peerIds_addServerParticipants (sp : List ServerParticipant) :
    ∀ (r : List Participant) (x : String),
      x ∈ peerIds (addServerParticipants r sp) ↔ x ∈ peerIds r ∨ ∃ p ∈ sp, p.id = x := by
  induction sp with
  | nil => intro r x; simp [addServerParticipants]
  | cons q sp ih =>
    intro r x
    have := ih (addParticipant r q.id q.username) x
    simp only [addServerParticipants, List.foldl_cons] at this ⊢
    rw [this, mem_peerIds_addParticipant]
    simp only [List.mem_cons, exists_eq_or_imp]
    constructor
    · rintro ((h | h) | h)
      · exact Or.inl h
      · exact Or.inr (Or.inl h.symm)
      · exact Or.inr (Or.inr h)
    · rintro (h | h | h)
      · exact Or.inl (Or.inl h)
      · exact Or.inl (Or.inr h.symm)
      · exact Or.inr h

/-- C4, as stated, fails: after the caller starts a call from Idle, the relay's
incoming-call echo that lists the caller in `participants` puts the caller into the
roster while the state is still Calling (no call-user-joined, no `joinCall`). -/
theorem start_call_echo_counterexample :
    run ⟨some "me", "r", "u"⟩ initial
        [Event.clickCallButton, Event.incomingCall "u" "me" "r" [⟨"me", "u"⟩]] =
      { callState := CallState.calling, callRoom := some "r", callHost := some "u",
        participants := [⟨"me", "u"⟩], isMuted := false, pendingResets := 0 } := by
  decide

/-- C4 (amended): a click on the call button in state Idle with a socket present
yields state Calling with host = local username and room = current room and leaves
the (empty) roster empty; the relay's incoming-call echo for the caller's own
call-start keeps the state Calling and leaves in the roster exactly the ids listed
in its `participants`, so the roster stays empty when that list is empty. -/
theorem start_call_from_idle (props : Props) (self : String) (s : CallCtx)
    (caller : String) (sp : List ServerParticipant)
    (hsock : props.socket = some self) (hidle : s.callState = CallState.idle)
    (hempty : s.participants = []) :
    (handleClick props s).1.callState = CallState.calling ∧
      (handleClick props s).1.callHost = some props.username ∧
      (handleClick props s).1.callRoom = some props.roomCode ∧
      (handleClick props s).1.participants = [] ∧
      (handleIncomingCall self props.roomCode (handleClick props s).1
          caller self props.roomCode sp).1.callState = CallState.calling ∧
      (∀ x, x ∈ peerIds (handleIncomingCall self props.roomCode (handleClick props s).1
          caller self props.roomCode sp).1.participants ↔ ∃ p ∈ sp, p.id = x) ∧
      (sp = [] → (handleIncomingCall self props.roomCode (handleClick props s).1
          caller self props.roomCode sp).1.participants = []) := by
  have hclick : (handleClick props s).1 =
      { s with callHost := some props.username, callRoom := some props.roomCode,
               callState := CallState.calling } := by
    simp [handleClick, hsock, hidle]
  rw [hclick]
  refine ⟨rfl, rfl, rfl, hempty, ?_, ?_, ?_⟩
  · simp [handleIncomingCall]
  · intro x
    have hp : (handleIncomingCall self props.roomCode
        { s with callHost := some props.username, callRoom := some props.roomCode,
                 callState := CallState.calling }
        caller self props.roomCode sp).1.participants =
          addServerParticipants s.participants sp := by
      simp [handleIncomingCall]
    rw [hp, mem_peerIds_addServerParticipants, hempty]
    simp [peerIds]
  · intro hsp
    simp [handleIncomingCall, hsp, hempty, addServerParticipants]

/-- Witness for C4 (amended): the first click of a fresh client, echoed with an
empty list. -/
theorem start_call_from_idle_witness :
    (handleClick ⟨some "me", "r", "u"⟩ initial).1.callState = CallState.calling ∧
      (handleIncomingCall "me" "r" (handleClick ⟨some "me", "r", "u"⟩ initial).1
          "u" "me" "r" []).1.participants = [] :=
  have h := start_call_from_idle ⟨some "me", "r", "u"⟩ "me" initial "u" [] rfl rfl rfl
  ⟨h.1, h.2.2.2.2.2.2 rfl⟩

/-! ## C5 -/

/-- C5, as stated, fails: a call-user-left event with `roomEmpty = true` and an
empty peerId is dropped by the guard `if (!socketId) return;`, and a client in
InCall stays InCall with its roster. -/
theorem user_left_empty_id_counterexample :
    (handleUserLeft "me"
        { callState := CallState.inCall, callRoom := some "r", callHost := some "u",
          participants := [⟨"me", "u"⟩], isMuted := false, pendingResets := 0 }
        "" "bob" true).1 =
      { callState := CallState.inCall, callRoom := some "r", callHost := some "u",
        participants := [⟨"me", "u"⟩], isMuted := false, pendingResets := 0 } := by
  decide

/-- C5 (amended): for every state and every call-user-left event with a non-empty
peerId and `roomEmpty = true`, the handler sets state Ended in that step with a
reset timer pending, and when the timer fires next the state is Idle with roster
empty, host null, room null and isMuted false. -/
theorem user_left_room_empty (self : String) (s : CallCtx) (socketId leftUser : String)
    (hid : socketId ≠ "") :
    (handleUserLeft self s socketId leftUser true).1.callState = CallState.ended ∧
      0 < (handleUserLeft self s socketId leftUser true).1.pendingResets ∧
      (fireReset (handleUserLeft self s socketId leftUser true).1).callState = CallState.idle ∧
      (fireReset (handleUserLeft self s socketId leftUser true).1).participants = [] ∧
      (fireReset (handleUserLeft self s socketId leftUser true).1).callHost = none ∧
      (fireReset (handleUserLeft self s socketId leftUser true).1).callRoom = none ∧
      (fireReset (handleUserLeft self s socketId leftUser true).1).isMuted = false := by
  have h : (handleUserLeft self s socketId leftUser true).1 =
      { markEnded { s with participants := removeParticipant s.participants socketId } with
        callHost := none, callRoom := none } := by
    simp [handleUserLeft, hid]
  rw [h]
  simp [markEnded, fireReset, resetCall]

/-- Witness for C5 (amended): the last remote peer leaves a two-party call. -/
theorem user_left_room_empty_witness :
    "B" ≠ "" ∧
      (handleUserLeft "me"
        { callState := CallState.inCall, callRoom := some "r", callHost := some "u",
          participants := [⟨"me", "u"⟩, ⟨"B", "bob"⟩], isMuted := true, pendingResets := 0 }
        "B" "bob" true).1.callState = CallState.ended :=
  ⟨by decide,
   (user_left_room_empty "me"
      { callState := CallState.inCall, callRoom := some "r", callHost := some "u",
        participants := [⟨"me", "u"⟩, ⟨"B", "bob"⟩], isMuted := true, pendingResets := 0 }
      "B" "bob" (by decide)).1⟩


/-! ## C6 and C7: what holds in Idle -/

theorem idle_inv_step (props : Props) (s : CallCtx) (e : Event)
    (hidle : s.callState = CallState.idle →
      s.callRoom = none ∧ s.callHost = none ∧ s.participants = [])
    (hcalling : s.callState = CallState.calling → s.callRoom ≠ none) :
    ((step props s e).1.callState = CallState.idle →
        (step props s e).1.callRoom = none ∧ (step props s e).1.callHost = none ∧
          (step props s e).1.participants = []) ∧
      ((step props s e).1.callState = CallState.calling →
        (step props s e).1.callRoom ≠ none) := by
  cases e <;> simp only [step] <;> cases props.socket <;>
    simp only [handleIncomingCall, handleExistingCall, handleUserJoined, handleUserLeft,
      handleCallEnded, handleClick, handleJoin, handleLeave, handleToggleMute, fireReset,
      resetCall, joinCall, markEnded, toggleMute] <;>
    (repeat' split) <;>
    simp_all [removeParticipant]

theorem idle_inv_run (props : Props) (es : List Event) :
    ∀ s : CallCtx,
      (s.callState = CallState.idle →
        s.callRoom = none ∧ s.callHost = none ∧ s.participants = []) →
      (s.callState = CallState.calling → s.callRoom ≠ none) →
      ((run props s es).callState = CallState.idle →
          (run props s es).callRoom = none ∧ (run props s es).callHost = none ∧
            (run props s es).participants = []) ∧
        ((run props s es).callState = CallState.calling → (run props s es).callRoom ≠ none) := by
  induction es with
  | nil => intro s h1 h2; exact ⟨h1, h2⟩
  | cons e es ih =>
    intro s h1 h2
    have hstep := idle_inv_step props s e h1 h2
    simp only [run, List.foldl_cons]
    exact ih _ hstep.1 hstep.2

/-- C6, as stated, fails: handling call-ended in the initial state gives state Ended
(not Idle) with room null. -/
theorem room_null_in_ended_counterexample :
    (run ⟨some "me", "r", "u"⟩ initial [Event.callEnded]).callState = CallState.ended ∧
      (run ⟨some "me", "r", "u"⟩ initial [Event.callEnded]).callRoom = none := by
  decide

/-- C6 (amended): in every state reachable from the initial state through the relay
handlers, the user gestures and the reset timer, if state is Idle then room is null
and host is null, and if state is Calling then room is non-null. -/
theorem idle_room_host_null (props : Props) (es : List Event) :
    ((run props initial es).callState = CallState.idle →
        (run props initial es).callRoom = none ∧ (run props initial es).callHost = none) ∧
      ((run props initial es).callState = CallState.calling →
        (run props initial es).callRoom ≠ none) := by
  have h := idle_inv_run props es initial (fun _ => ⟨rfl, rfl, rfl⟩)
    (fun h => absurd h (by decide))
  exact ⟨fun hi => ⟨(h.1 hi).1, (h.1 hi).2.1⟩, h.2⟩

/-- Witness for C6 (amended): a call that is started, ended by the relay and reset
is Idle again; a call that is started is Calling. -/
theorem idle_room_host_null_witness :
    ((run ⟨some "me", "r", "u"⟩ initial
        [Event.clickCallButton, Event.callEnded, Event.resetTimer]).callRoom = none ∧
      (run ⟨some "me", "r", "u"⟩ initial
        [Event.clickCallButton, Event.callEnded, Event.resetTimer]).callHost = none) ∧
      (run ⟨some "me", "r", "u"⟩ initial [Event.clickCallButton]).callRoom ≠ none :=
  ⟨(idle_room_host_null ⟨some "me", "r", "u"⟩
      [Event.clickCallButton, Event.callEnded, Event.resetTimer]).1 (by decide),
   (idle_room_host_null ⟨some "me", "r", "u"⟩ [Event.clickCallButton]).2 (by decide)⟩

/-- C7: in every state reachable from the initial state through the relay handlers,
the user gestures (start, join, leave, mute) and the Ended reset timer, the roster
is empty whenever state is Idle. -/
theorem idle_roster_empty (props : Props) (es : List Event)
    (hidle : (run props initial es).callState = CallState.idle) :
    (run props initial es).participants = [] :=
  ((idle_inv_run props es initial (fun _ => ⟨rfl, rfl, rfl⟩)
    (fun h => absurd h (by decide))).1 hidle).2.2

/-- Witness for C7: a roster filled by an incoming call and a join is empty again
after the call ends and the reset timer fires. -/
theorem idle_roster_empty_witness :
    (run ⟨some "me", "r", "u"⟩ initial
        [Event.incomingCall "alice" "A" "r" [⟨"A", "alice"⟩], Event.clickJoin,
          Event.callUserLeft "A" "alice" true, Event.resetTimer]).callState = CallState.idle ∧
      (run ⟨some "me", "r", "u"⟩ initial
        [Event.incomingCall "alice" "A" "r" [⟨"A", "alice"⟩], Event.clickJoin,
          Event.callUserLeft "A" "alice" true, Event.resetTimer]).participants = [] :=
  ⟨by decide,
   idle_roster_empty ⟨some "me", "r", "u"⟩
     [Event.incomingCall "alice" "A" "r" [⟨"A", "alice"⟩], Event.clickJoin,
       Event.callUserLeft "A" "alice" true, Event.resetTimer] (by decide)⟩


/-! ## C8 -/

/-- C8 (failing input): a client that is Ringing after alice's incoming call, and
is not listed in `participants`, handles call-user-joined for bob and ends in
InCall although it never joined; its own id is not in the roster. -/
theorem user_joined_moves_bystander_in_call :
    run ⟨some "me", "r", "u"⟩ initial
        [Event.incomingCall "alice" "A" "r" [⟨"A", "alice"⟩],
          Event.callUserJoined "B" "bob" [⟨"A", "alice"⟩, ⟨"B", "bob"⟩]] =
      { callState := CallState.inCall, callRoom := some "r", callHost := some "alice",
        participants := [⟨"A", "alice"⟩, ⟨"B", "bob"⟩], isMuted := false,
        pendingResets := 0 } ∧
      (run ⟨some "me", "r", "u"⟩ initial
        [Event.incomingCall "alice" "A" "r" [⟨"A", "alice"⟩]]).callState = CallState.ringing := by
  decide

/-! ## C9 -/

/-- C9, as stated, fails: a client in Calling whose roster is empty handles the
incoming-call echo listing itself; afterwards its own id is in the roster and the
state is Calling, not InCall. -/
theorem self_added_while_calling_counterexample :
    "me" ∉ peerIds ([] : List Participant) ∧
      "me" ∈ peerIds (handleIncomingCall "me" "r"
        { callState := CallState.calling, callRoom := some "r", callHost := some "u",
          participants := [], isMuted := false, pendingResets := 0 }
        "u" "me" "r" [⟨"me", "u"⟩]).1.participants ∧
      (handleIncomingCall "me" "r"
        { callState := CallState.calling, callRoom := some "r", callHost := some "u",
          participants := [], isMuted := false, pendingResets := 0 }
        "u" "me" "r" [⟨"me", "u"⟩]).1.callState = CallState.calling := by
  decide

theorem any_server_id_iff (sp : List ServerParticipant) (id : String) :
    sp.any (fun p => p.id == id) = true ↔ ∃ p ∈ sp, p.id = id := by
  simp only [List.any_eq_true, beq_iff_eq]

/-- C9 (amended): with a socket present, a step that puts the local peerId into the
roster ends in state InCall unless it is an incoming-call of the current room whose
`participants` lists the local peerId; and every step into InCall other than a
call-user-joined for a different peerId (a local join, a call-existing listing the
local peerId, a call-user-joined for the local peerId) leaves the local peerId in
the roster. -/
theorem self_in_roster_with_in_call (props : Props) (self : String) (s : CallCtx) (e : Event)
    (hsock : props.socket = some self) :
    (self ∉ peerIds s.participants → self ∈ peerIds (step props s e).1.participants →
        (step props s e).1.callState = CallState.inCall ∨
          ∃ caller callerId sp, e = Event.incomingCall caller callerId props.roomCode sp ∧
            ∃ p ∈ sp, p.id = self) ∧
      ((∀ id u sp, e = Event.callUserJoined id u sp → id = self) →
        s.callState ≠ CallState.inCall →
        (step props s e).1.callState = CallState.inCall →
        self ∈ peerIds (step props s e).1.participants) := by
  constructor
  · intro hnot hin
    cases e with
    | incomingCall caller callerId room sp =>
      right
      simp only [step, hsock, handleIncomingCall] at hin
      by_cases hroom : room = props.roomCode
      · subst hroom
        refine ⟨caller, callerId, sp, rfl, ?_⟩
        have hmem : self ∈ peerIds (addServerParticipants s.participants sp) := by
          simp only [bne_self_eq_false, Bool.false_eq_true, if_false] at hin
          split at hin
          · exact hin
          · split at hin <;> exact hin
        rcases (mem_peerIds_addServerParticipants sp s.participants self).1 hmem with h | h
        · exact absurd h hnot
        · exact h
      · have hne : (room != props.roomCode) = true := by simpa using hroom
        simp only [hne, if_true] at hin
        exact absurd hin hnot
    | callExisting room hostName sp =>
      left
      simp only [step, hsock, handleExistingCall] at hin ⊢
      by_cases hroom : room = props.roomCode
      · subst hroom
        simp only [bne_self_eq_false, Bool.false_eq_true, if_false] at hin ⊢
        by_cases hany : sp.any (fun p => p.id == self) = true
        · simp only [hany, if_true]
        · exfalso
          have hmem : self ∈ peerIds (addServerParticipants s.participants sp) := by
            simp only [hany, Bool.false_eq_true, if_false] at hin
            split at hin <;> exact hin
          rcases (mem_peerIds_addServerParticipants sp s.participants self).1 hmem with h | h
          · exact hnot h
          · exact hany ((any_server_id_iff sp self).2 h)
      · have hne : (room != props.roomCode) = true := by simpa using hroom
        simp only [hne, if_true] at hin
        exact absurd hin hnot
    | callUserJoined socketId username sp =>
      left
      simp only [step, hsock, handleUserJoined]
    | callUserLeft socketId username roomEmpty =>
      exfalso
      simp only [step, hsock, handleUserLeft] at hin
      have hsub : ∀ r : List Participant, self ∈ peerIds (removeParticipant r socketId) →
          self ∈ peerIds r := fun r h => ((mem_peerIds_removeParticipant r socketId self).1 h).1
      (repeat' split at hin) <;> first | exact hnot hin | exact hnot (hsub _ hin)
    | callEnded =>
      exfalso
      simp only [step, hsock, handleCallEnded, markEnded] at hin
      exact hnot hin
    | clickCallButton =>
      simp only [step, hsock, handleClick, joinCall] at hin ⊢
      (repeat' split at hin) <;> simp_all
    | clickJoin =>
      simp only [step, hsock, handleJoin, joinCall] at hin ⊢
      (repeat' split at hin) <;> simp_all
    | clickLeave =>
      exfalso
      simp only [step, hsock, handleLeave] at hin
      (repeat' split at hin) <;> exact hnot hin
    | clickMute =>
      exfalso
      simp only [step, hsock, handleToggleMute, toggleMute] at hin
      (repeat' split at hin) <;> exact hnot hin
    | resetTimer =>
      exfalso
      simp only [step, fireReset, resetCall] at hin
      split at hin
      · exact hnot hin
      · simp [peerIds] at hin
  · intro hjoin hne hin
    have hself : ∀ n, self ∈ peerIds (addParticipant s.participants self n) := fun n =>
      (mem_peerIds_addParticipant _ self n self).2 (Or.inr rfl)
    cases e with
    | incomingCall caller callerId room sp =>
      exfalso
      simp only [step, hsock, handleIncomingCall] at hin
      (repeat' split at hin) <;> simp_all
    | callExisting room hostName sp =>
      simp only [step, hsock, handleExistingCall] at hin ⊢
      by_cases hroom : room = props.roomCode
      · subst hroom
        simp only [bne_self_eq_false, Bool.false_eq_true, if_false] at hin ⊢
        by_cases hany : sp.any (fun p => p.id == self) = true
        · simp only [hany, if_true]
          exact (mem_peerIds_addServerParticipants sp s.participants self).2
            (Or.inr ((any_server_id_iff sp self).1 hany))
        · exfalso
          simp only [hany, Bool.false_eq_true, if_false] at hin
          (repeat' split at hin) <;> simp_all
      · exfalso
        have hne2 : (room != props.roomCode) = true := by simpa using hroom
        simp only [hne2, if_true] at hin
        exact hne hin
    | callUserJoined socketId username sp =>
      have hid := hjoin socketId username sp rfl
      subst hid
      simp only [step, hsock, handleUserJoined]
      exact hself username
    | callUserLeft socketId username roomEmpty =>
      exfalso
      simp only [step, hsock, handleUserLeft, markEnded] at hin
      (repeat' split at hin) <;> simp_all
    | callEnded =>
      exfalso
      simp only [step, hsock, handleCallEnded, markEnded] at hin
      exact absurd hin (by decide)
    | clickCallButton =>
      simp only [step, hsock, handleClick, joinCall] at hin ⊢
      (repeat' split at hin) <;> simp_all
    | clickJoin =>
      simp only [step, hsock, handleJoin, joinCall] at hin ⊢
      (repeat' split at hin) <;> simp_all
    | clickLeave =>
      exfalso
      simp only [step, hsock, handleLeave] at hin
      (repeat' split at hin) <;> exact hne hin
    | clickMute =>
      exfalso
      simp only [step, hsock, handleToggleMute, toggleMute] at hin
      (repeat' split at hin) <;> exact hne hin
    | resetTimer =>
      exfalso
      simp only [step, fireReset, resetCall] at hin
      (repeat' split at hin) <;> simp_all


/-- Witness for C9 (amended): pressing Join in Ringing puts the local peerId into
the roster and the state is InCall. -/
theorem self_in_roster_with_in_call_witness :
    (step ⟨some "me", "r", "u"⟩
        { callState := CallState.ringing, callRoom := some "r", callHost := some "alice",
          participants := [⟨"A", "alice"⟩], isMuted := false, pendingResets := 0 }
        Event.clickJoin).1.callState = CallState.inCall ∧
      "me" ∈ peerIds (step ⟨some "me", "r", "u"⟩
        { callState := CallState.ringing, callRoom := some "r", callHost := some "alice",
          participants := [⟨"A", "alice"⟩], isMuted := false, pendingResets := 0 }
        Event.clickJoin).1.participants :=
  ⟨by decide,
   (self_in_roster_with_in_call ⟨some "me", "r", "u"⟩ "me"
      { callState := CallState.ringing, callRoom := some "r", callHost := some "alice",
        participants := [⟨"A", "alice"⟩], isMuted := false, pendingResets := 0 }
      Event.clickJoin rfl).2 (by intro id u sp h; cases h) (by decide) (by decide)⟩

/-! ## C10 -/

theorem count_startCallTo (self x : String) (sp : List ServerParticipant) :
    ((sp.filter (fun p => p.id != self)).map (fun p => Effect.startCallTo p.id)).count
        (Effect.startCallTo x) =
      if x = self then 0 else sp.countP (fun p => p.id == x) := by
  induction sp with
  | nil => simp
  | cons p sp ih =>
    by_cases hp : p.id = self
    · rw [List.filter_cons_of_neg (by simp [hp]), ih]
      by_cases hx : x = self
      · simp [hx]
      · have : ¬ p.id = x := by rw [hp]; exact fun h => hx h.symm
        simp [hx, List.countP_cons, this]
    · rw [List.filter_cons_of_pos (by simp [hp]), List.map_cons, List.count_cons, ih]
      by_cases hx : x = self
      · subst hx
        simp [hp]
      · simp only [hx, if_false, List.countP_cons, beq_iff_eq, Effect.startCallTo.injEq]

/-- C10: when call-user-joined is handled with joined peerId = self, the effects
are `startCallTo` calls only, never one for self, and for every other id as many
calls as `participants` has entries with that id (one per entry); with participants
A, B and self = B the only call is `startCallTo(A)`; when the joined peerId differs
from self there is no call at all. -/
theorem joiner_initiates_offers (self : String) (s : CallCtx) (socketId username : String)
    (sp : List ServerParticipant) :
    (socketId = self →
        (∀ f ∈ (handleUserJoined self s socketId username sp).2, ∃ x, f = Effect.startCallTo x) ∧
        (handleUserJoined self s socketId username sp).2.count (Effect.startCallTo self) = 0 ∧
        ∀ x, x ≠ self →
          (handleUserJoined self s socketId username sp).2.count (Effect.startCallTo x) =
            sp.countP (fun p => p.id == x)) ∧
      (socketId ≠ self → (handleUserJoined self s socketId username sp).2 = []) ∧
      (handleUserJoined "B" s "B" username [⟨"A", "alice"⟩, ⟨"B", "bob"⟩]).2 =
        [Effect.startCallTo "A"] := by
  refine ⟨?_, ?_, by simp [handleUserJoined]⟩
  · intro h
    subst h
    simp only [handleUserJoined, beq_self_eq_true, if_true]
    refine ⟨?_, ?_, ?_⟩
    · intro f hf
      rcases List.mem_map.1 hf with ⟨p, _, rfl⟩
      exact ⟨p.id, rfl⟩
    · rw [count_startCallTo]; simp
    · intro x hx
      rw [count_startCallTo, if_neg hx]
  · intro h
    simp [handleUserJoined, h]

/-- Witness for C10: the joiner B of a call with A and C, listed twice by the relay. -/
theorem joiner_initiates_offers_witness :
    (handleUserJoined "B" initial "B" "bob"
        [⟨"A", "alice"⟩, ⟨"B", "bob"⟩, ⟨"C", "carol"⟩, ⟨"A", "alice"⟩]).2.count
          (Effect.startCallTo "A") = 2 ∧
      (handleUserJoined "B" initial "A" "alice" [⟨"A", "alice"⟩, ⟨"B", "bob"⟩]).2 = [] :=
  have h := joiner_initiates_offers "B" initial "B" "bob"
    [⟨"A", "alice"⟩, ⟨"B", "bob"⟩, ⟨"C", "carol"⟩, ⟨"A", "alice"⟩]
  have h2 := joiner_initiates_offers "B" initial "A" "alice" [⟨"A", "alice"⟩, ⟨"B", "bob"⟩]
  ⟨((h.1 rfl).2.2 "A" (by decide)).trans (by decide), h2.2.1 (by decide)⟩


/-! ## Manager lemmas -/

theorem getElem?_updateConn (cs : List PeerConnection) (i j : Nat)
    (f : PeerConnection → PeerConnection) :
    (updateConn cs i f)[j]? = if i = j then cs[j]?.map f else cs[j]? := by
  unfold updateConn
  by_cases hij : i = j
  · subst hij
    cases h : cs[i]? with
    | none => simp [h]
    | some pc =>
      have hlt : i < cs.length := by
        rcases List.getElem?_eq_some_iff.1 h with ⟨hlt, _⟩
        exact hlt
      simp [List.getElem?_set, hlt]
  · cases h : cs[i]? with
    | none => simp [hij]
    | some pc => simp [hij, List.getElem?_set_ne hij]

theorem closePeer_closePeer (pc : PeerConnection) : closePeer (closePeer pc) = closePeer pc := rfl

theorem getElem?_closeAll (peers : List (String × Nat)) :
    ∀ (cs : List PeerConnection) (j : Nat),
      (peers.foldl (fun cs e => updateConn cs e.2 closePeer) cs)[j]? =
        if j ∈ peers.map (fun e => e.2) then cs[j]?.map closePeer else cs[j]? := by
  induction peers with
  | nil => intro cs j; simp
  | cons e peers ih =>
    intro cs j
    rw [List.foldl_cons, ih, getElem?_updateConn]
    by_cases hj : j ∈ peers.map (fun e => e.2)
    · have hj' : j ∈ (e :: peers).map (fun e => e.2) := by
        rw [List.map_cons]
        exact List.mem_cons_of_mem _ hj
      rw [if_pos hj, if_pos hj']
      by_cases he : e.2 = j
      · rw [if_pos he]
        cases cs[j]? <;> simp [closePeer]
      · rw [if_neg he]
    · rw [if_neg hj]
      by_cases he : e.2 = j
      · rw [if_pos he, if_pos (by rw [List.map_cons, he]; exact List.mem_cons_self _ _)]
      · rw [if_neg he, if_neg]
        rw [List.map_cons, List.mem_cons]
        rintro (h | h)
        · exact he h.symm
        · exact hj h

theorem cleanup_spec (m : Rtc) :
    (cleanup m).peers = [] ∧ (cleanup m).remoteStreams = [] ∧ (cleanup m).localStream = none ∧
      (cleanup m).micRequests = m.micRequests ∧
      (∀ k i, (k, i) ∈ m.peers →
        ((cleanup m).conns[i]?).map (fun pc => pc.closed) = (m.conns[i]?).map (fun _ => true)) ∧
      (∀ s, m.localStream = some s →
        ∃ s' ∈ (cleanup m).released, s'.id = s.id ∧ s'.tracks.length = s.tracks.length ∧
          ∀ t ∈ s'.tracks, t.stopped = true) := by
  have hconns : (cleanup m).conns =
      m.peers.foldl (fun cs e => updateConn cs e.2 closePeer) m.conns := by
    unfold cleanup stopLocalStream closeAllPeers
    cases m.localStream <;> rfl
  refine ⟨?_, ?_, ?_, ?_, ?_, ?_⟩
  · unfold cleanup stopLocalStream closeAllPeers
    cases m.localStream <;> rfl
  · unfold cleanup stopLocalStream closeAllPeers
    cases m.localStream <;> rfl
  · unfold cleanup stopLocalStream closeAllPeers
    cases m.localStream <;> rfl
  · unfold cleanup stopLocalStream closeAllPeers
    cases m.localStream <;> rfl
  · intro k i hki
    rw [hconns, getElem?_closeAll, if_pos (List.mem_map.2 ⟨(k, i), hki, rfl⟩)]
    cases m.conns[i]? <;> simp [closePeer]
  · intro s hs
    refine ⟨{ s with tracks := s.tracks.map (fun t => { t with stopped := true }) }, ?_, rfl, ?_, ?_⟩
    · unfold cleanup stopLocalStream closeAllPeers
      simp [hs]
    · simp
    · intro t ht
      rcases List.mem_map.1 ht with ⟨t0, _, rfl⟩
      rfl

/-! ## C11 -/

/-- C11: with a socket whose id `self` is a non-empty string, handling
call-user-left for `self` with `roomEmpty = false` (from InCall, and from any other
state) gives state Ringing, a roster without `self`, room and host unchanged, an
empty link map with every connection that was in the map closed, no remote
stream, and the local capture released (reference null, every track stopped). -/
theorem self_left_goes_ringing (props : Props) (self : String) (c : Client)
    (leftUser : String) (hsock : props.socket = some self) (hself : self ≠ "") :
    (clientStep props c (Event.callUserLeft self leftUser false)).ctx.callState =
        CallState.ringing ∧
      self ∉ peerIds (clientStep props c (Event.callUserLeft self leftUser false)).ctx.participants ∧
      (clientStep props c (Event.callUserLeft self leftUser false)).ctx.callRoom =
        c.ctx.callRoom ∧
      (clientStep props c (Event.callUserLeft self leftUser false)).ctx.callHost =
        c.ctx.callHost ∧
      (clientStep props c (Event.callUserLeft self leftUser false)).rtc.peers = [] ∧
      (∀ k i, (k, i) ∈ c.rtc.peers →
        ((clientStep props c (Event.callUserLeft self leftUser false)).rtc.conns[i]?).map
            (fun pc => pc.closed) = (c.rtc.conns[i]?).map (fun _ => true)) ∧
      (clientStep props c (Event.callUserLeft self leftUser false)).rtc.localStream = none ∧
      (∀ s, c.rtc.localStream = some s →
        ∃ s' ∈ (clientStep props c (Event.callUserLeft self leftUser false)).rtc.released,
          s'.id = s.id ∧ ∀ t ∈ s'.tracks, t.stopped = true) := by
  have hstep : clientStep props c (Event.callUserLeft self leftUser false) =
      { ctx := { c.ctx with participants := removeParticipant c.ctx.participants self,
                            callState := CallState.ringing },
        rtc := cleanup c.rtc } := by
    simp [clientStep, step, hsock, handleUserLeft, hself, applyCall]
  rw [hstep]
  have hc := cleanup_spec c.rtc
  refine ⟨rfl, ?_, rfl, rfl, hc.1, hc.2.2.2.2.1, hc.2.2.1, ?_⟩
  · intro hmem
    exact ((mem_peerIds_removeParticipant _ self self).1 hmem).2 rfl
  · intro s hs
    rcases hc.2.2.2.2.2 s hs with ⟨s', hs', hid, _, hstop⟩
    exact ⟨s', hs', hid, hstop⟩


/-- Witness for C11: "me" is in a call with A and B, has two links and a live
microphone, and its own leave is acknowledged while A and B remain. -/
theorem self_left_goes_ringing_witness :
    "me" ≠ "" ∧
      (clientStep ⟨some "me", "r", "u"⟩
        { ctx := { callState := CallState.inCall, callRoom := some "r", callHost := some "alice",
                   participants := [⟨"A", "alice"⟩, ⟨"me", "u"⟩, ⟨"B", "bob"⟩], isMuted := false,
                   pendingResets := 0 },
          rtc := { remoteStreams := ["sA", "sB"],
                   localStream := some ⟨"mic", [⟨"t", TrackKind.audio, true, false⟩]⟩,
                   peers := [("A", 0), ("B", 1)],
                   conns := [{ newPeerConnection with ontrack := true },
                             { newPeerConnection with ontrack := true }],
                   micRequests := 1, released := [] } }
        (Event.callUserLeft "me" "u" false)).ctx.callState = CallState.ringing :=
  ⟨by decide,
   (self_left_goes_ringing ⟨some "me", "r", "u"⟩ "me"
      { ctx := { callState := CallState.inCall, callRoom := some "r", callHost := some "alice",
                 participants := [⟨"A", "alice"⟩, ⟨"me", "u"⟩, ⟨"B", "bob"⟩], isMuted := false,
                 pendingResets := 0 },
        rtc := { remoteStreams := ["sA", "sB"],
                 localStream := some ⟨"mic", [⟨"t", TrackKind.audio, true, false⟩]⟩,
                 peers := [("A", 0), ("B", 1)],
                 conns := [{ newPeerConnection with ontrack := true },
                           { newPeerConnection with ontrack := true }],
                 micRequests := 1, released := [] } }
      "u" rfl (by decide)).1⟩

/-! ## C12 and C13: a remote peer leaves while others remain -/

theorem clientStep_remote_left (props : Props) (self : String) (c : Client)
    (p leftUser : String) (hsock : props.socket = some self) (hp : p ≠ self) (hne : p ≠ "") :
    clientStep props c (Event.callUserLeft p leftUser false) =
      { ctx := { c.ctx with participants := c.ctx.participants.filter (fun q => q.id != p) },
        rtc := c.rtc } := by
  simp [clientStep, step, hsock, handleUserLeft, hne, hp, removeParticipant]

/-- C12: with a socket present, handling call-user-left for a remote peer `p`
(a non-empty id other than self) with `roomEmpty = false` leaves as roster the
previous roster filtered by id ≠ p, in the same order, so without any entry of id
`p`; state, room, host, isMuted and the pending timers are unchanged, and so is the
whole manager, local capture included. -/
theorem remote_left_frame (props : Props) (self : String) (c : Client)
    (p leftUser : String) (hsock : props.socket = some self) (hp : p ≠ self) (hne : p ≠ "") :
    (clientStep props c (Event.callUserLeft p leftUser false)).ctx.participants =
        c.ctx.participants.filter (fun q => q.id != p) ∧
      p ∉ peerIds (clientStep props c (Event.callUserLeft p leftUser false)).ctx.participants ∧
      (∀ q ∈ c.ctx.participants, q.id ≠ p →
        q ∈ (clientStep props c (Event.callUserLeft p leftUser false)).ctx.participants) ∧
      (clientStep props c (Event.callUserLeft p leftUser false)).ctx.callState =
        c.ctx.callState ∧
      (clientStep props c (Event.callUserLeft p leftUser false)).ctx.callRoom = c.ctx.callRoom ∧
      (clientStep props c (Event.callUserLeft p leftUser false)).ctx.callHost = c.ctx.callHost ∧
      (clientStep props c (Event.callUserLeft p leftUser false)).ctx.isMuted = c.ctx.isMuted ∧
      (clientStep props c (Event.callUserLeft p leftUser false)).ctx.pendingResets =
        c.ctx.pendingResets ∧
      (clientStep props c (Event.callUserLeft p leftUser false)).rtc.localStream =
        c.rtc.localStream ∧
      (clientStep props c (Event.callUserLeft p leftUser false)).rtc = c.rtc := by
  rw [clientStep_remote_left props self c p leftUser hsock hp hne]
  refine ⟨rfl, ?_, ?_, rfl, rfl, rfl, rfl, rfl, rfl, rfl⟩
  · intro hmem
    exact ((mem_peerIds_removeParticipant c.ctx.participants p p).1 hmem).2 rfl
  · intro q hq hqp
    exact List.mem_filter.2 ⟨hq, by simpa using hqp⟩

/-- Witness for C12: B leaves a call of A, B and "me"; "me" stays InCall with A. -/
theorem remote_left_frame_witness :
    "B" ≠ "me" ∧ "B" ≠ "" ∧
      (clientStep ⟨some "me", "r", "u"⟩
        { ctx := { callState := CallState.inCall, callRoom := some "r", callHost := some "alice",
                   participants := [⟨"A", "alice"⟩, ⟨"B", "bob"⟩, ⟨"me", "u"⟩], isMuted := true,
                   pendingResets := 0 },
          rtc := { initialRtc with
                   localStream := some ⟨"mic", [⟨"t", TrackKind.audio, false, false⟩]⟩ } }
        (Event.callUserLeft "B" "bob" false)).ctx.participants = [⟨"A", "alice"⟩, ⟨"me", "u"⟩] :=
  ⟨by decide, by decide,
   (remote_left_frame ⟨some "me", "r", "u"⟩ "me"
      { ctx := { callState := CallState.inCall, callRoom := some "r", callHost := some "alice",
                 participants := [⟨"A", "alice"⟩, ⟨"B", "bob"⟩, ⟨"me", "u"⟩], isMuted := true,
                 pendingResets := 0 },
        rtc := { initialRtc with
                 localStream := some ⟨"mic", [⟨"t", TrackKind.audio, false, false⟩]⟩ } }
      "B" "bob" rfl (by decide) (by decide)).1.trans (by decide)⟩

/-- C13, as stated, fails: "me" is in a call with A and B and holds a link to each;
after call-user-left for B with `roomEmpty = false` the link map still maps B to
its connection, and that connection is not closed. -/
theorem remote_left_link_kept_counterexample :
    peersGet (clientStep ⟨some "me", "r", "u"⟩
        { ctx := { callState := CallState.inCall, callRoom := some "r", callHost := some "alice",
                   participants := [⟨"A", "alice"⟩, ⟨"B", "bob"⟩, ⟨"me", "u"⟩], isMuted := false,
                   pendingResets := 0 },
          rtc := { remoteStreams := ["sA", "sB"],
                   localStream := some ⟨"mic", [⟨"t", TrackKind.audio, true, false⟩]⟩,
                   peers := [("A", 0), ("B", 1)],
                   conns := [{ newPeerConnection with ontrack := true },
                             { newPeerConnection with ontrack := true }],
                   micRequests := 1, released := [] } }
        (Event.callUserLeft "B" "bob" false)).rtc.peers "B" = some 1 ∧
      ((clientStep ⟨some "me", "r", "u"⟩
        { ctx := { callState := CallState.inCall, callRoom := some "r", callHost := some "alice",
                   participants := [⟨"A", "alice"⟩, ⟨"B", "bob"⟩, ⟨"me", "u"⟩], isMuted := false,
                   pendingResets := 0 },
          rtc := { remoteStreams := ["sA", "sB"],
                   localStream := some ⟨"mic", [⟨"t", TrackKind.audio, true, false⟩]⟩,
                   peers := [("A", 0), ("B", 1)],
                   conns := [{ newPeerConnection with ontrack := true },
                             { newPeerConnection with ontrack := true }],
                   micRequests := 1, released := [] } }
        (Event.callUserLeft "B" "bob" false)).rtc.conns[1]?).map (fun pc => pc.closed) =
        some false := by
  decide

/-- C13 (amended): with a socket present, when a remote peer `p` (a non-empty id
other than self) leaves while others remain, no link is closed or removed: the
link map, the entry for `p` included, and every connection object are unchanged. -/
theorem remote_left_links_unchanged (props : Props) (self : String) (c : Client)
    (p leftUser : String) (hsock : props.socket = some self) (hp : p ≠ self) (hne : p ≠ "") :
    (clientStep props c (Event.callUserLeft p leftUser false)).rtc.peers = c.rtc.peers ∧
      (∀ q, peersGet (clientStep props c (Event.callUserLeft p leftUser false)).rtc.peers q =
        peersGet c.rtc.peers q) ∧
      (clientStep props c (Event.callUserLeft p leftUser false)).rtc.conns = c.rtc.conns ∧
      (clientStep props c (Event.callUserLeft p leftUser false)).rtc.remoteStreams =
        c.rtc.remoteStreams := by
  rw [clientStep_remote_left props self c p leftUser hsock hp hne]
  exact ⟨rfl, fun _ => rfl, rfl, rfl⟩

/-- Witness for C13 (amended): B leaves and the two links of "me" stay as they are. -/
theorem remote_left_links_unchanged_witness :
    "B" ≠ "me" ∧ "B" ≠ "" ∧
      (clientStep ⟨some "me", "r", "u"⟩
        { ctx := { callState := CallState.inCall, callRoom := some "r", callHost := some "alice",
                   participants := [⟨"A", "alice"⟩, ⟨"B", "bob"⟩, ⟨"me", "u"⟩], isMuted := false,
                   pendingResets := 0 },
          rtc := { initialRtc with peers := [("A", 0), ("B", 1)],
                                   conns := [newPeerConnection, newPeerConnection] } }
        (Event.callUserLeft "B" "bob" false)).rtc.peers = [("A", 0), ("B", 1)] :=
  ⟨by decide, by decide,
   (remote_left_links_unchanged ⟨some "me", "r", "u"⟩ "me"
      { ctx := { callState := CallState.inCall, callRoom := some "r", callHost := some "alice",
                 participants := [⟨"A", "alice"⟩, ⟨"B", "bob"⟩, ⟨"me", "u"⟩], isMuted := false,
                 pendingResets := 0 },
        rtc := { initialRtc with peers := [("A", 0), ("B", 1)],
                                 conns := [newPeerConnection, newPeerConnection] } }
      "B" "bob" rfl (by decide) (by decide)).1⟩


/-! ## C14 -/

theorem peersGet_cons (e : String × Nat) (peers : List (String × Nat)) (q : String) :
    peersGet (e :: peers) q = if e.1 = q then some e.2 else peersGet peers q := by
  by_cases he : e.1 = q
  · simp [peersGet, List.find?_cons, he]
  · have hb : (e.1 == q) = false := by simpa using he
    simp [peersGet, List.find?_cons, hb, he]

theorem peersGet_eq_none_iff (peers : List (String × Nat)) (k : String) :
    peersGet peers k = none ↔ k ∉ peerKeys peers := by
  induction peers with
  | nil => simp [peersGet, peerKeys]
  | cons e peers ih =>
    rw [peersGet_cons]
    by_cases he : e.1 = k
    · simp [he, peerKeys]
    · rw [if_neg he, ih]
      simp only [peerKeys, List.map_cons, List.mem_cons, not_or]
      constructor
      · intro h
        exact ⟨fun hk => he hk.symm, h⟩
      · intro h
        exact h.2

theorem peersSet_of_not_mem (peers : List (String × Nat)) (k : String) (v : Nat)
    (h : k ∉ peerKeys peers) : peersSet peers k v = peers ++ [(k, v)] := by
  unfold peersSet
  rw [if_neg]
  simp only [List.any_eq_true, beq_iff_eq, not_exists, not_and]
  intro e he hk
  exact h (List.mem_map.2 ⟨e, he, hk⟩)

theorem peersGet_append_singleton (peers : List (String × Nat)) (k q : String) (v : Nat) :
    peersGet (peers ++ [(k, v)]) q =
      match peersGet peers q with
      | some i => some i
      | none => if k = q then some v else none := by
  induction peers with
  | nil =>
    rw [List.nil_append, peersGet_cons]
    simp [peersGet]
  | cons e peers ih =>
    rw [List.cons_append, peersGet_cons, peersGet_cons]
    by_cases he : e.1 = q
    · simp [he]
    · rw [if_neg he, if_neg he, ih]

theorem createPeerConnection_new (m : Rtc) (p : String) (u : Option MediaStream)
    (m1 : Rtc) (i : Nat) (hnone : peersGet m.peers p = none)
    (h : createPeerConnection m p u = (m1, some i)) :
    i = m.conns.length ∧ m1.peers = m.peers ++ [(p, i)] ∧
      m1.micRequests ≤ m.micRequests + 1 ∧
      (m.localStream ≠ none → m1.micRequests = m.micRequests ∧ m1.localStream = m.localStream) := by
  have hnot := (peersGet_eq_none_iff m.peers p).1 hnone
  unfold createPeerConnection ensureLocalStream at h
  rw [hnone] at h
  cases hl : m.localStream with
  | some s =>
    simp only [hl] at h
    injection h with h1 h2
    injection h2 with h2
    subst h1
    subst h2
    simp [peersSet_of_not_mem _ _ _ hnot, hl]
  | none =>
    cases u with
    | none => simp [hl] at h
    | some s =>
      simp only [hl] at h
      injection h with h1 h2
      injection h2 with h2
      subst h1
      subst h2
      simp [peersSet_of_not_mem _ _ _ hnot]

/-- C14: if a `createPeerConnection(p)` call completes with connection `i`, a
second call for `p` returns the same connection `i` and changes nothing (so it
makes no `getUserMedia` call); afterwards the link map maps `p` to `i`, it is the
old map or the old map with the one entry for `p` appended, every other key maps
to what it mapped to before, a map with distinct keys holds exactly one entry for
`p`, and at most one `getUserMedia` call was made over both calls. -/
theorem createPeerConnection_idempotent (m m1 : Rtc) (p : String)
    (u1 u2 : Option MediaStream) (i : Nat)
    (h : createPeerConnection m p u1 = (m1, some i)) :
    createPeerConnection m1 p u2 = (m1, some i) ∧
      peersGet m1.peers p = some i ∧
      (m1.peers = m.peers ∨ (p ∉ peerKeys m.peers ∧ m1.peers = m.peers ++ [(p, i)])) ∧
      (∀ q, q ≠ p → peersGet m1.peers q = peersGet m.peers q) ∧
      ((peerKeys m.peers).Nodup → (peerKeys m1.peers).count p = 1) ∧
      (createPeerConnection m1 p u2).1.micRequests ≤ m.micRequests + 1 := by
  have key : peersGet m1.peers p = some i ∧
      (m1.peers = m.peers ∨ (p ∉ peerKeys m.peers ∧ m1.peers = m.peers ++ [(p, i)])) ∧
      m1.micRequests ≤ m.micRequests + 1 := by
    cases hg : peersGet m.peers p with
    | some j =>
      have h' := h
      unfold createPeerConnection at h'
      rw [hg] at h'
      injection h' with h1 h2
      injection h2 with h2
      subst h1
      subst h2
      exact ⟨hg, Or.inl rfl, Nat.le_succ _⟩
    | none =>
      have hn := createPeerConnection_new m p u1 m1 i hg h
      have hnot := (peersGet_eq_none_iff m.peers p).1 hg
      refine ⟨?_, Or.inr ⟨hnot, hn.2.1⟩, hn.2.2.1⟩
      rw [hn.2.1, peersGet_append_singleton, hg]
      simp
  have hsecond : createPeerConnection m1 p u2 = (m1, some i) := by
    unfold createPeerConnection
    rw [key.1]
  refine ⟨hsecond, key.1, key.2.1, ?_, ?_, ?_⟩
  · intro q hq
    rcases key.2.1 with heq | ⟨_, heq⟩
    · rw [heq]
    · rw [heq, peersGet_append_singleton]
      cases peersGet m.peers q with
      | some j => rfl
      | none => simp [Ne.symm hq]
  · intro hnodup
    rcases key.2.1 with heq | ⟨hnot, heq⟩
    · rw [heq]
      have hmem : p ∈ peerKeys m.peers := by
        by_contra hc
        have := (peersGet_eq_none_iff m.peers p).2 hc
        rw [← heq, key.1] at this
        exact absurd this (by simp)
      exact List.count_eq_one_of_mem hnodup hmem
    · rw [heq]
      simp only [peerKeys, List.map_append, List.map_cons, List.map_nil, List.count_append,
        List.count_singleton_self]
      have : List.count p (List.map (fun e => e.1) m.peers) = 0 :=
        List.count_eq_zero_of_not_mem hnot
      rw [this]
  · rw [hsecond]
    exact key.2.2

/-- Witness for C14: the first link of a fresh manager, asked for twice. -/
theorem createPeerConnection_idempotent_witness :
    createPeerConnection initialRtc "A" (some ⟨"mic", [⟨"t", TrackKind.audio, true, false⟩]⟩) =
        ({ remoteStreams := [],
           localStream := some ⟨"mic", [⟨"t", TrackKind.audio, true, false⟩]⟩,
           peers := [("A", 0)],
           conns := [{ newPeerConnection with senders := ["t"], onicecandidate := some "A",
                                              ontrack := true }],
           micRequests := 1, released := [] }, some 0) ∧
      (createPeerConnection
        { remoteStreams := [],
          localStream := some ⟨"mic", [⟨"t", TrackKind.audio, true, false⟩]⟩,
          peers := [("A", 0)],
          conns := [{ newPeerConnection with senders := ["t"], onicecandidate := some "A",
                                             ontrack := true }],
          micRequests := 1, released := [] } "A"
        (some ⟨"mic2", [⟨"t2", TrackKind.audio, true, false⟩]⟩)).1.micRequests ≤ 0 + 1 :=
  ⟨by decide,
   (createPeerConnection_idempotent initialRtc _ "A"
      (some ⟨"mic", [⟨"t", TrackKind.audio, true, false⟩]⟩)
      (some ⟨"mic2", [⟨"t2", TrackKind.audio, true, false⟩]⟩) 0 (by decide)).2.2.2.2.2⟩


/-! ## C15 -/

/-- C15: when the link map has no entry for `p`, handling call-answer or
call-ice-candidate from `p` (for any room, description, candidate and outcome of
the browser calls) returns the manager as it was (link map, connections, local
capture, remote streams, microphone requests) and emits nothing; in particular the
map still has no entry for `p`. -/
theorem stale_answer_candidate_noop (roomCode : String) (m : Rtc) (o : Outcome)
    (callRoom p : String) (sdp : Sdp) (candidate : Option String)
    (h : peersGet m.peers p = none) :
    handleAnswer roomCode m o callRoom p sdp = (m, []) ∧
      handleIceCandidate roomCode m o callRoom p candidate = (m, []) ∧
      peersGet (handleAnswer roomCode m o callRoom p sdp).1.peers p = none ∧
      peersGet (handleIceCandidate roomCode m o callRoom p candidate).1.peers p = none := by
  have h1 : handleAnswer roomCode m o callRoom p sdp = (m, []) := by
    unfold handleAnswer
    rw [h]
    split <;> rfl
  have h2 : handleIceCandidate roomCode m o callRoom p candidate = (m, []) := by
    unfold handleIceCandidate
    rw [h]
    split
    · rfl
    · cases candidate <;> rfl
  rw [h1, h2]
  exact ⟨rfl, rfl, h, h⟩

/-- Witness for C15: an answer and a candidate from C reach a manager whose only
link is to A. -/
theorem stale_answer_candidate_noop_witness :
    peersGet [("A", 0)] "C" = none ∧
      handleAnswer "r"
        { initialRtc with peers := [("A", 0)], conns := [newPeerConnection] }
        ⟨none, some "o", some "a", true, true, true⟩ "r" "C" "sdpC" =
        ({ initialRtc with peers := [("A", 0)], conns := [newPeerConnection] }, []) :=
  ⟨by decide,
   (stale_answer_candidate_noop "r"
      { initialRtc with peers := [("A", 0)], conns := [newPeerConnection] }
      ⟨none, some "o", some "a", true, true, true⟩ "r" "C" "sdpC" (some "cand") (by decide)).1⟩

/-! ## C16 -/

/-- C16, as stated, fails: "me" had a link to A and a live microphone; after
`cleanup` a call-offer from A for the current room is handled with every browser
call succeeding: the link map has an entry for A again, `getUserMedia` was called
once more, a new capture is held and a call-answer goes to A. -/
theorem trailing_offer_counterexample :
    handleOffer "r"
        (cleanup
          { remoteStreams := ["sA"],
            localStream := some ⟨"mic", [⟨"t", TrackKind.audio, true, false⟩]⟩,
            peers := [("A", 0)],
            conns := [{ newPeerConnection with senders := ["t"], onicecandidate := some "A",
                                               ontrack := true }],
            micRequests := 1, released := [] })
        ⟨some ⟨"mic2", [⟨"t2", TrackKind.audio, true, false⟩]⟩, none, some "answer",
          true, true, true⟩
        "r" "A" "offerA" =
      ({ remoteStreams := [],
         localStream := some ⟨"mic2", [⟨"t2", TrackKind.audio, true, false⟩]⟩,
         peers := [("A", 1)],
         conns := [{ newPeerConnection with senders := ["t"], closed := true },
                   { newPeerConnection with senders := ["t2"], onicecandidate := some "A",
                                            ontrack := true, remoteDescription := some "offerA",
                                            localDescription := some "answer" }],
         micRequests := 2,
         released := [⟨"mic", [⟨"t", TrackKind.audio, true, true⟩]⟩] },
       [Signal.callAnswer "r" "A" "answer"]) := by
  decide

/-- C16 (amended): a call-offer from `p` handled after `cleanup` is dropped (manager
unchanged, nothing emitted) when its room differs from the current room.  For the
current room it is handled like a first offer: `getUserMedia` is called once more;
when it rejects, the link map stays empty, no capture is held and nothing is
emitted; when it resolves, the link map gets an entry for `p` and the new capture
is held, whatever the negotiation does; exactly one call-answer, to `p`, is
emitted when `setRemoteDescription`, `createAnswer` and `setLocalDescription`
succeed, and nothing is emitted when one of them fails. -/
theorem trailing_offer_after_cleanup (roomCode : String) (m : Rtc) (o : Outcome)
    (callRoom p : String) (sdp : Sdp) :
    (callRoom ≠ roomCode → handleOffer roomCode (cleanup m) o callRoom p sdp = (cleanup m, [])) ∧
      (handleOffer roomCode (cleanup m) o roomCode p sdp).1.micRequests = m.micRequests + 1 ∧
      (o.userMedia = none →
        (handleOffer roomCode (cleanup m) o roomCode p sdp).1.peers = [] ∧
        (handleOffer roomCode (cleanup m) o roomCode p sdp).1.localStream = none ∧
        (handleOffer roomCode (cleanup m) o roomCode p sdp).2 = []) ∧
      (∀ s, o.userMedia = some s →
        (handleOffer roomCode (cleanup m) o roomCode p sdp).1.peers = [(p, m.conns.length)] ∧
        (handleOffer roomCode (cleanup m) o roomCode p sdp).1.localStream = some s) ∧
      (∀ s answer, o.userMedia = some s → o.setRemoteOk = true → o.answer = some answer →
        o.setLocalOk = true →
        (handleOffer roomCode (cleanup m) o roomCode p sdp).2 =
          [Signal.callAnswer roomCode p answer]) ∧
      ((o.setRemoteOk = false ∨ o.answer = none ∨ o.setLocalOk = false) →
        (handleOffer roomCode (cleanup m) o roomCode p sdp).2 = []) := by
  have hc := cleanup_spec m
  have hlen : (cleanup m).conns.length = m.conns.length := by
    have : ∀ (peers : List (String × Nat)) (cs : List PeerConnection),
        (peers.foldl (fun cs e => updateConn cs e.2 closePeer) cs).length = cs.length := by
      intro peers
      induction peers with
      | nil => intro cs; rfl
      | cons e peers ih =>
        intro cs
        rw [List.foldl_cons, ih]
        unfold updateConn
        split <;> simp
    unfold cleanup stopLocalStream closeAllPeers
    cases m.localStream <;> exact this _ _
  have hget : peersGet ([] : List (String × Nat)) p = none := rfl
  obtain ⟨userMedia, offer, answer, setLocalOk, setRemoteOk, addCandidateOk⟩ := o
  refine ⟨?_, ?_, ?_, ?_, ?_, ?_⟩
  · intro hroom
    have : (callRoom != roomCode) = true := by simpa using hroom
    simp [handleOffer, this]
  · cases userMedia <;> cases setRemoteOk <;> cases answer <;> cases setLocalOk <;>
      simp [handleOffer, createPeerConnection, ensureLocalStream, hget, hc.2.2.1, hc.1,
        hc.2.2.2.1]
  · intro hu
    simp only at hu
    subst hu
    simp [handleOffer, createPeerConnection, ensureLocalStream, hget, hc.2.2.1, hc.1]
  · intro s hu
    simp only at hu
    subst hu
    cases setRemoteOk <;> cases answer <;> cases setLocalOk <;>
      simp [handleOffer, createPeerConnection, ensureLocalStream, hget, hc.2.2.1, hc.1, hlen,
        peersSet]
  · intro s ans hu hsr ha hsl
    simp only at hu hsr ha hsl
    subst hu hsr ha hsl
    simp [handleOffer, createPeerConnection, ensureLocalStream, hget, hc.2.2.1, hc.1]
  · intro hfail
    simp only at hfail
    cases userMedia <;> cases setRemoteOk <;> cases answer <;> cases setLocalOk <;>
      simp_all [handleOffer, createPeerConnection, ensureLocalStream, hget]

/-- Witness for C16 (amended): after `cleanup` an offer from A is answered, and an
offer whose `setRemoteDescription` fails still stores the link. -/
theorem trailing_offer_after_cleanup_witness :
    (handleOffer "r" (cleanup { initialRtc with peers := [("A", 0)], conns := [newPeerConnection] })
        ⟨some ⟨"mic2", []⟩, none, some "answer", true, true, true⟩ "r" "A" "offerA").2 =
        [Signal.callAnswer "r" "A" "answer"] ∧
      (handleOffer "r" (cleanup { initialRtc with peers := [("A", 0)], conns := [newPeerConnection] })
        ⟨some ⟨"mic2", []⟩, none, some "answer", true, false, true⟩ "r" "A" "offerA").1.peers =
        [("A", 1)] :=
  ⟨(trailing_offer_after_cleanup "r"
      { initialRtc with peers := [("A", 0)], conns := [newPeerConnection] }
      ⟨some ⟨"mic2", []⟩, none, some "answer", true, true, true⟩ "r" "A" "offerA").2.2.2.2.1
      ⟨"mic2", []⟩ "answer" rfl rfl rfl rfl,
   ((trailing_offer_after_cleanup "r"
      { initialRtc with peers := [("A", 0)], conns := [newPeerConnection] }
      ⟨some ⟨"mic2", []⟩, none, some "answer", true, false, true⟩ "r" "A" "offerA").2.2.2.1
      ⟨"mic2", []⟩ rfl).1⟩

/-! ## C17 -/

/-- C17: with a socket present, handling call-ended from any state sets state
Ended with a reset timer pending and host and room null, and in the same step
empties the link map, closes every connection that was in it, empties the remote
streams and releases the local capture (reference null, every track stopped). -/
theorem call_ended_tears_down (props : Props) (self : String) (c : Client)
    (hsock : props.socket = some self) :
    (clientStep props c Event.callEnded).ctx.callState = CallState.ended ∧
      (clientStep props c Event.callEnded).ctx.callHost = none ∧
      (clientStep props c Event.callEnded).ctx.callRoom = none ∧
      0 < (clientStep props c Event.callEnded).ctx.pendingResets ∧
      (clientStep props c Event.callEnded).rtc.peers = [] ∧
      (clientStep props c Event.callEnded).rtc.remoteStreams = [] ∧
      (clientStep props c Event.callEnded).rtc.localStream = none ∧
      (∀ k i, (k, i) ∈ c.rtc.peers →
        ((clientStep props c Event.callEnded).rtc.conns[i]?).map (fun pc => pc.closed) =
          (c.rtc.conns[i]?).map (fun _ => true)) ∧
      (∀ s, c.rtc.localStream = some s →
        ∃ s' ∈ (clientStep props c Event.callEnded).rtc.released,
          s'.id = s.id ∧ ∀ t ∈ s'.tracks, t.stopped = true) := by
  have hstep : clientStep props c Event.callEnded =
      { ctx := { markEnded c.ctx with callHost := none, callRoom := none },
        rtc := cleanup c.rtc } := by
    simp [clientStep, step, hsock, handleCallEnded, applyCall]
  rw [hstep]
  have hc := cleanup_spec c.rtc
  refine ⟨rfl, rfl, rfl, Nat.succ_pos _, hc.1, hc.2.1, hc.2.2.1, hc.2.2.2.2.1, ?_⟩
  intro s hs
  rcases hc.2.2.2.2.2 s hs with ⟨s', hs', hid, _, hstop⟩
  exact ⟨s', hs', hid, hstop⟩

/-- Witness for C17: call-ended reaches "me" in a call with two links. -/
theorem call_ended_tears_down_witness :
    (clientStep ⟨some "me", "r", "u"⟩
        { ctx := { callState := CallState.inCall, callRoom := some "r", callHost := some "alice",
                   participants := [⟨"A", "alice"⟩, ⟨"me", "u"⟩, ⟨"B", "bob"⟩], isMuted := false,
                   pendingResets := 0 },
          rtc := { remoteStreams := ["sA", "sB"],
                   localStream := some ⟨"mic", [⟨"t", TrackKind.audio, true, false⟩]⟩,
                   peers := [("A", 0), ("B", 1)],
                   conns := [newPeerConnection, newPeerConnection],
                   micRequests := 1, released := [] } }
        Event.callEnded).rtc.peers = [] :=
  (call_ended_tears_down ⟨some "me", "r", "u"⟩ "me"
      { ctx := { callState := CallState.inCall, callRoom := some "r", callHost := some "alice",
                 participants := [⟨"A", "alice"⟩, ⟨"me", "u"⟩, ⟨"B", "bob"⟩], isMuted := false,
                 pendingResets := 0 },
        rtc := { remoteStreams := ["sA", "sB"],
                 localStream := some ⟨"mic", [⟨"t", TrackKind.audio, true, false⟩]⟩,
                 peers := [("A", 0), ("B", 1)],
                 conns := [newPeerConnection, newPeerConnection],
                 micRequests := 1, released := [] } }
      rfl).2.2.2.2.1


/-! ## C18 -/

theorem muteLocalAudio_muteLocalAudio (m : Rtc) (a b : Bool) :
    muteLocalAudio (muteLocalAudio m a) b = muteLocalAudio m b := by
  unfold muteLocalAudio
  cases hl : m.localStream with
  | none => simp [hl]
  | some s =>
    simp only [List.map_map]
    congr 3
    apply List.map_congr_left
    intro t _
    by_cases hk : t.kind = TrackKind.audio <;> simp [hk]

theorem muteLocalAudio_of_agree (m : Rtc) (b : Bool)
    (h : ∀ s, m.localStream = some s → ∀ t ∈ s.tracks, t.kind = TrackKind.audio →
      t.enabled = !b) :
    muteLocalAudio m b = m := by
  unfold muteLocalAudio
  cases hl : m.localStream with
  | none => cases m; simp_all
  | some s =>
    have hmap : s.tracks.map (fun t =>
        if t.kind = TrackKind.audio then { t with enabled := !b } else t) = s.tracks := by
      conv_rhs => rw [← List.map_id s.tracks]
      apply List.map_congr_left
      intro t ht
      by_cases hk : t.kind = TrackKind.audio
      · have := h s hl t ht hk
        cases t
        simp_all
      · simp [hk]
    simp only [hmap]
    cases m
    simp_all

theorem muteLocalAudio_spec (m : Rtc) (muted : Bool) :
    (muteLocalAudio m muted).peers = m.peers ∧ (muteLocalAudio m muted).conns = m.conns ∧
      (muteLocalAudio m muted).remoteStreams = m.remoteStreams ∧
      (muteLocalAudio m muted).micRequests = m.micRequests ∧
      (muteLocalAudio m muted).released = m.released ∧
      (m.localStream = none → (muteLocalAudio m muted).localStream = none) ∧
      (∀ s, m.localStream = some s →
        ∃ s', (muteLocalAudio m muted).localStream = some s' ∧ s'.id = s.id ∧
          s'.tracks.map (fun t => (t.id, t.kind, t.stopped)) =
            s.tracks.map (fun t => (t.id, t.kind, t.stopped)) ∧
          (∀ t ∈ s'.tracks, t.kind = TrackKind.audio → t.enabled = !muted) ∧
          s'.tracks.filter (fun t => decide (t.kind ≠ TrackKind.audio)) =
            s.tracks.filter (fun t => decide (t.kind ≠ TrackKind.audio))) := by
  unfold muteLocalAudio
  cases hl : m.localStream with
  | none => simp [hl]
  | some s =>
    refine ⟨rfl, rfl, rfl, rfl, rfl, by simp, ?_⟩
    intro s0 hs0
    injection hs0 with hs0
    subst hs0
    refine ⟨_, rfl, rfl, ?_, ?_, ?_⟩
    · simp only [List.map_map]
      apply List.map_congr_left
      intro t _
      by_cases hk : t.kind = TrackKind.audio <;> simp [hk]
    · intro t ht hk
      rcases List.mem_map.1 ht with ⟨t0, _, rfl⟩
      by_cases hk0 : t0.kind = TrackKind.audio
      · simp [hk0]
      · simp [hk0] at hk
    · induction s.tracks with
      | nil => rfl
      | cons t ts ih =>
        by_cases hk : t.kind = TrackKind.audio
        · simpa [List.filter_cons, hk] using ih
        · simpa [List.filter_cons, hk] using ih

theorem clientStep_clickMute (props : Props) (self : String) (c : Client)
    (hsock : props.socket = some self) (hin : c.ctx.callState = CallState.inCall) :
    clientStep props c Event.clickMute =
      { ctx := toggleMute c.ctx, rtc := muteLocalAudio c.rtc (!c.ctx.isMuted) } := by
  simp [clientStep, step, hsock, hin, handleToggleMute, applyCall]

/-- C18, as stated, fails: "me" is InCall and muted, and the capture acquired after
the mute has its audio track enabled; two mute toggles restore isMuted (true) but
leave the track disabled. -/
theorem toggle_twice_counterexample :
    mutedBeforeCapture.ctx.callState = CallState.inCall ∧
      mutedBeforeCapture.ctx.isMuted = true ∧
      mutedBeforeCapture.rtc.localStream =
        some ⟨"mic", [⟨"t", TrackKind.audio, true, false⟩]⟩ ∧
      (clientStep ⟨some "me", "r", "u"⟩
        (clientStep ⟨some "me", "r", "u"⟩ mutedBeforeCapture Event.clickMute)
        Event.clickMute).ctx.isMuted = true ∧
      (clientStep ⟨some "me", "r", "u"⟩
        (clientStep ⟨some "me", "r", "u"⟩ mutedBeforeCapture Event.clickMute)
        Event.clickMute).rtc.localStream =
        some ⟨"mic", [⟨"t", TrackKind.audio, false, false⟩]⟩ := by
  decide

/-- C18 (amended): `muteLocalAudio(m)` sets `enabled = !m` on every audio track of
the current capture and changes nothing else (same stream, same tracks in the same
order, other tracks untouched, link map, connections, remote streams, microphone
requests unchanged); with a socket present a mute toggle in InCall makes exactly
the calls `muteLocalAudio(!isMuted)` and one call-mute emit, and leaves the link
map and every connection unchanged; two toggles restore isMuted and leave every
audio track with `enabled = !isMuted`, so they restore the manager whenever the
audio tracks had `enabled = !isMuted` before. -/
theorem mute_toggle_frame (props : Props) (self : String) (c : Client) (m : Rtc)
    (muted : Bool) (hsock : props.socket = some self)
    (hin : c.ctx.callState = CallState.inCall) :
    ((muteLocalAudio m muted).peers = m.peers ∧ (muteLocalAudio m muted).conns = m.conns ∧
      (muteLocalAudio m muted).micRequests = m.micRequests ∧
      (m.localStream = none → (muteLocalAudio m muted).localStream = none) ∧
      (∀ s, m.localStream = some s →
        ∃ s', (muteLocalAudio m muted).localStream = some s' ∧ s'.id = s.id ∧
          s'.tracks.map (fun t => (t.id, t.kind, t.stopped)) =
            s.tracks.map (fun t => (t.id, t.kind, t.stopped)) ∧
          (∀ t ∈ s'.tracks, t.kind = TrackKind.audio → t.enabled = !muted) ∧
          s'.tracks.filter (fun t => decide (t.kind ≠ TrackKind.audio)) =
            s.tracks.filter (fun t => decide (t.kind ≠ TrackKind.audio)))) ∧
      (step props c.ctx Event.clickMute).2 =
        [Effect.muteLocalAudio (!c.ctx.isMuted),
          Effect.emitCallMute props.roomCode (!c.ctx.isMuted)] ∧
      (clientStep props c Event.clickMute).ctx = { c.ctx with isMuted := !c.ctx.isMuted } ∧
      (clientStep props c Event.clickMute).rtc.peers = c.rtc.peers ∧
      (clientStep props c Event.clickMute).rtc.conns = c.rtc.conns ∧
      (clientStep props (clientStep props c Event.clickMute) Event.clickMute).ctx = c.ctx ∧
      (∀ s, c.rtc.localStream = some s →
        ∃ s', (clientStep props (clientStep props c Event.clickMute)
            Event.clickMute).rtc.localStream = some s' ∧
          ∀ t ∈ s'.tracks, t.kind = TrackKind.audio → t.enabled = !c.ctx.isMuted) ∧
      ((∀ s, c.rtc.localStream = some s → ∀ t ∈ s.tracks, t.kind = TrackKind.audio →
          t.enabled = !c.ctx.isMuted) →
        (clientStep props (clientStep props c Event.clickMute) Event.clickMute).rtc = c.rtc) := by
  have hm := muteLocalAudio_spec m muted
  have h1 := clientStep_clickMute props self c hsock hin
  have hin2 : (clientStep props c Event.clickMute).ctx.callState = CallState.inCall := by
    rw [h1]
    exact hin
  have h2 := clientStep_clickMute props self (clientStep props c Event.clickMute) hsock hin2
  have hrtc : (clientStep props (clientStep props c Event.clickMute) Event.clickMute).rtc =
      muteLocalAudio c.rtc c.ctx.isMuted := by
    rw [h2, h1]
    simp [toggleMute, muteLocalAudio_muteLocalAudio]
  have hc := muteLocalAudio_spec c.rtc (!c.ctx.isMuted)
  refine ⟨⟨hm.1, hm.2.1, hm.2.2.2.1, hm.2.2.2.2.2.1, hm.2.2.2.2.2.2⟩, ?_, ?_, ?_, ?_, ?_, ?_, ?_⟩
  · simp [step, hsock, hin, handleToggleMute]
  · rw [h1]
    rfl
  · rw [h1]
    exact hc.1
  · rw [h1]
    exact hc.2.1
  · rw [h2, h1]
    cases c with
    | mk ctx rtc =>
      cases ctx
      simp [toggleMute]
  · intro s hs
    rw [hrtc]
    rcases (muteLocalAudio_spec c.rtc c.ctx.isMuted).2.2.2.2.2.2 s hs with ⟨s', hs', _, _, hen, _⟩
    exact ⟨s', hs', hen⟩
  · intro hagree
    rw [hrtc]
    exact muteLocalAudio_of_agree c.rtc c.ctx.isMuted hagree

/-- Witness for C18 (amended): "me", unmuted, InCall with links to A and B and a
live microphone, toggles mute. -/
theorem mute_toggle_frame_witness :
    (step ⟨some "me", "r", "u"⟩
        { callState := CallState.inCall, callRoom := some "r", callHost := some "alice",
          participants := [⟨"A", "alice"⟩, ⟨"me", "u"⟩, ⟨"B", "bob"⟩], isMuted := false,
          pendingResets := 0 }
        Event.clickMute).2 =
      [Effect.muteLocalAudio (!false), Effect.emitCallMute "r" (!false)] :=
  (mute_toggle_frame ⟨some "me", "r", "u"⟩ "me"
      { ctx := { callState := CallState.inCall, callRoom := some "r", callHost := some "alice",
                 participants := [⟨"A", "alice"⟩, ⟨"me", "u"⟩, ⟨"B", "bob"⟩], isMuted := false,
                 pendingResets := 0 },
        rtc := { remoteStreams := ["sA", "sB"],
                 localStream := some ⟨"mic", [⟨"t", TrackKind.audio, true, false⟩]⟩,
                 peers := [("A", 0), ("B", 1)],
                 conns := [newPeerConnection, newPeerConnection],
                 micRequests := 1, released := [] } }
      initialRtc true rfl rfl).2.1


/-! ## C19 -/

/-- C19: handling incoming-call for the current room gives state Calling when the
caller id is self; otherwise Ringing when the state was not InCall, and InCall when
it was InCall; in every case host becomes the caller's name and room the event's
room, and no call into the manager is made. -/
theorem incoming_call_transition (self roomCode : String) (s : CallCtx)
    (caller callerId : String) (sp : List ServerParticipant) :
    (callerId = self →
        (handleIncomingCall self roomCode s caller callerId roomCode sp).1.callState =
          CallState.calling) ∧
      (callerId ≠ self → s.callState ≠ CallState.inCall →
        (handleIncomingCall self roomCode s caller callerId roomCode sp).1.callState =
          CallState.ringing) ∧
      (callerId ≠ self → s.callState = CallState.inCall →
        (handleIncomingCall self roomCode s caller callerId roomCode sp).1.callState =
          CallState.inCall) ∧
      (handleIncomingCall self roomCode s caller callerId roomCode sp).1.callHost = some caller ∧
      (handleIncomingCall self roomCode s caller callerId roomCode sp).1.callRoom =
        some roomCode ∧
      (handleIncomingCall self roomCode s caller callerId roomCode sp).2 = [] := by
  unfold handleIncomingCall
  simp only [bne_self_eq_false, Bool.false_eq_true, if_false]
  by_cases hc : callerId = self
  · simp [hc]
  · by_cases hs : s.callState = CallState.inCall
    · simp [hc, hs]
    · simp [hc, hs]

/-- Witness for C19: alice's call reaches "me" in Idle; the echo of its own
call-start reaches "me" in Calling; bob's second call reaches "me" in InCall. -/
theorem incoming_call_transition_witness :
    (handleIncomingCall "me" "r" initial "alice" "A" "r" [⟨"A", "alice"⟩]).1.callState =
        CallState.ringing ∧
      (handleIncomingCall "me" "r" { initial with callState := CallState.calling }
        "u" "me" "r" []).1.callState = CallState.calling ∧
      (handleIncomingCall "me" "r" { initial with callState := CallState.inCall }
        "bob" "B" "r" []).1.callState = CallState.inCall :=
  ⟨(incoming_call_transition "me" "r" initial "alice" "A" [⟨"A", "alice"⟩]).2.1
      (by decide) (by decide),
   (incoming_call_transition "me" "r" { initial with callState := CallState.calling }
      "u" "me" []).1 rfl,
   (incoming_call_transition "me" "r" { initial with callState := CallState.inCall }
      "bob" "B" []).2.2.1 (by decide) rfl⟩

/-! ## C20 -/

/-- C20: handling call-existing for the current room when no entry of
`participants` has the local peerId gives state Ringing from every state other than
InCall and leaves InCall unchanged; afterwards every listed id is in the roster,
room is the event's room, and host is `hostName`, or null when `hostName` is
absent or empty. -/
theorem existing_call_not_member (self roomCode : String) (s : CallCtx)
    (hostName : Option String) (sp : List ServerParticipant)
    (hnot : ∀ p ∈ sp, p.id ≠ self) :
    (s.callState ≠ CallState.inCall →
        (handleExistingCall self roomCode s roomCode hostName sp).1.callState =
          CallState.ringing) ∧
      (s.callState = CallState.inCall →
        (handleExistingCall self roomCode s roomCode hostName sp).1.callState =
          CallState.inCall) ∧
      (∀ p ∈ sp, p.id ∈ peerIds (handleExistingCall self roomCode s roomCode hostName sp).1.participants) ∧
      (∀ x ∈ peerIds s.participants,
        x ∈ peerIds (handleExistingCall self roomCode s roomCode hostName sp).1.participants) ∧
      (hostName = none →
        (handleExistingCall self roomCode s roomCode hostName sp).1.callHost = none) ∧
      (hostName = some "" →
        (handleExistingCall self roomCode s roomCode hostName sp).1.callHost = none) ∧
      (∀ h, hostName = some h → h ≠ "" →
        (handleExistingCall self roomCode s roomCode hostName sp).1.callHost = some h) ∧
      (handleExistingCall self roomCode s roomCode hostName sp).1.callRoom = some roomCode := by
  have hany : sp.any (fun p => p.id == self) = false := by
    rw [Bool.eq_false_iff]
    intro h
    rcases (any_server_id_iff sp self).1 h with ⟨p, hp, hid⟩
    exact hnot p hp hid
  have hpart : (handleExistingCall self roomCode s roomCode hostName sp).1.participants =
      addServerParticipants s.participants sp := by
    unfold handleExistingCall
    simp only [bne_self_eq_false, Bool.false_eq_true, if_false, hany]
    split <;> rfl
  have hhost : (handleExistingCall self roomCode s roomCode hostName sp).1.callHost =
      hostOrNull hostName := by
    unfold handleExistingCall
    simp only [bne_self_eq_false, Bool.false_eq_true, if_false, hany]
    split <;> rfl
  refine ⟨?_, ?_, ?_, ?_, ?_, ?_, ?_, ?_⟩
  · intro hs
    simp [handleExistingCall, hany, hs]
  · intro hs
    simp [handleExistingCall, hany, hs]
  · intro p hp
    rw [hpart]
    exact (mem_peerIds_addServerParticipants sp s.participants p.id).2 (Or.inr ⟨p, hp, rfl⟩)
  · intro x hx
    rw [hpart]
    exact (mem_peerIds_addServerParticipants sp s.participants x).2 (Or.inl hx)
  · intro hn
    rw [hhost, hn]
    rfl
  · intro hn
    rw [hhost, hn]
    rfl
  · intro h hn hne
    rw [hhost, hn]
    simp [hostOrNull, hne]
  · unfold handleExistingCall
    simp only [bne_self_eq_false, Bool.false_eq_true, if_false, hany]
    split <;> rfl

/-- Witness for C20: "me" enters room "r" while alice and bob are in a call. -/
theorem existing_call_not_member_witness :
    (handleExistingCall "me" "r" initial "r" (some "alice")
        [⟨"A", "alice"⟩, ⟨"B", "bob"⟩]).1.callState = CallState.ringing ∧
      (handleExistingCall "me" "r" initial "r" (some "alice")
        [⟨"A", "alice"⟩, ⟨"B", "bob"⟩]).1.callHost = some "alice" :=
  have h := existing_call_not_member "me" "r" initial (some "alice")
    [⟨"A", "alice"⟩, ⟨"B", "bob"⟩]
    (by
      intro p hp
      simp only [List.mem_cons, List.mem_singleton, List.not_mem_nil, or_false] at hp
      rcases hp with rfl | rfl <;> decide)
  ⟨h.1 (by decide), h.2.2.2.2.2.2.1 "alice" rfl (by decide)⟩


/-! ## Calls split at their suspension -/

theorem createPeerConnection_eq_begin_resume (m : Rtc) (p : String)
    (u : Option MediaStream) :
    createPeerConnection m p u =
      createPeerConnectionResume (createPeerConnectionBegin m p).1
        (createPeerConnectionBegin m p).2 u := by
  unfold createPeerConnection createPeerConnectionBegin ensureLocalStream
  cases hg : peersGet m.peers p with
  | some i => rfl
  | none =>
    cases hl : m.localStream with
    | some s => simp [hl, createPeerConnectionResume, installLink]
    | none =>
      cases u with
      | none => simp [hl, createPeerConnectionResume]
      | some s => simp [hl, createPeerConnectionResume, installLink]

theorem startCallTo_eq_begin_resume (socket : Option String) (roomCode : String) (m : Rtc)
    (o : Outcome) (p : String) :
    startCallTo socket roomCode m o p =
      match startCallToBegin socket m p with
      | (m1, none) => (m1, [])
      | (m1, some k) => startCallToResume roomCode m1 k o p := by
  cases socket with
  | none => rfl
  | some self =>
    simp only [startCallTo, startCallToBegin, startCallToResume,
      createPeerConnection_eq_begin_resume]

theorem createPeerConnectionResume_some (m : Rtc) (k : Pending) (s : MediaStream) :
    ∃ m1 i, createPeerConnectionResume m k (some s) = (m1, some i) := by
  cases k with
  | existing i => exact ⟨m, i, rfl⟩
  | haveStream p i ls => exact ⟨_, i, rfl⟩
  | awaitingMedia p i => exact ⟨_, i, rfl⟩

theorem startCallToResume_good (roomCode : String) (m : Rtc) (k : Pending) (o : Outcome)
    (q : String) (s : MediaStream) (offer : Sdp)
    (hu : o.userMedia = some s) (ho : o.offer = some offer) (hl : o.setLocalOk = true) :
    (startCallToResume roomCode m k o q).2 = [Signal.callOffer roomCode q offer] := by
  rcases createPeerConnectionResume_some m k s with ⟨m1, i, h⟩
  simp [startCallToResume, hu, h, ho, hl]

theorem startCallTo_good (socket : Option String) (self roomCode : String) (m : Rtc)
    (o : Outcome) (q : String) (s : MediaStream) (offer : Sdp) (hsock : socket = some self)
    (hu : o.userMedia = some s) (ho : o.offer = some offer) (hl : o.setLocalOk = true) :
    (startCallTo socket roomCode m o q).2 = [Signal.callOffer roomCode q offer] := by
  rw [startCallTo_eq_begin_resume, hsock]
  exact startCallToResume_good roomCode _ _ o q s offer hu ho hl

theorem startCallToResume_failed (roomCode : String) (m : Rtc) (k : Pending) (o : Outcome)
    (p : String)
    (hfail : (createPeerConnectionResume m k o.userMedia).2 = none ∨ o.offer = none ∨
      o.setLocalOk = false) :
    (startCallToResume roomCode m k o p).2 = [] := by
  unfold startCallToResume
  rcases hr : createPeerConnectionResume m k o.userMedia with ⟨m1, r⟩
  cases r with
  | none => rfl
  | some i =>
    rcases hfail with h | h | h
    · rw [hr] at h
      exact absurd h (by simp)
    · simp [h]
    · cases o.offer <;> simp [h]


/-! ## C21 -/

/-- C21, as stated, fails: "me" is Ringing for alice's call and presses Join; the
echoed call-user-joined asks for `startCallTo("A")`, whose `getUserMedia` rejects.
No link is stored, no capture is held and nothing is emitted, yet the state is
InCall and "me" is in the roster. -/
theorem join_without_microphone_counterexample :
    (clientStartCallTo ⟨some "me", "r", "u"⟩
        (clientStep ⟨some "me", "r", "u"⟩
          (clientStep ⟨some "me", "r", "u"⟩
            (clientStep ⟨some "me", "r", "u"⟩ { ctx := initial, rtc := initialRtc }
              (Event.incomingCall "alice" "A" "r" [⟨"A", "alice"⟩]))
            Event.clickJoin)
          (Event.callUserJoined "me" "u" [⟨"A", "alice"⟩, ⟨"me", "u"⟩]))
        { userMedia := none, offer := some "offer", answer := none, setLocalOk := true,
          setRemoteOk := true, addCandidateOk := true }
        "A") =
      ({ ctx := { callState := CallState.inCall, callRoom := some "r", callHost := some "alice",
                  participants := [⟨"A", "alice"⟩, ⟨"me", "u"⟩], isMuted := false,
                  pendingResets := 0 },
         rtc := { remoteStreams := [], localStream := none, peers := [],
                  conns := [newPeerConnection], micRequests := 1, released := [] } },
       []) := by
  decide

/-- C21 (amended): when the local user joins from Ringing with a socket present,
the join is made before any microphone request: the state is InCall and self is
in the roster; if `getUserMedia` then rejects inside a `startCallTo` that needs a
capture and a link, the call stays joined: the context is unchanged (InCall, self
in the roster), no link is stored, no capture is held and no call-offer is
emitted. -/
theorem join_survives_media_failure (props : Props) (self : String) (c : Client)
    (o : Outcome) (p : String) (hsock : props.socket = some self)
    (hring : c.ctx.callState = CallState.ringing) (hu : o.userMedia = none)
    (hnone : c.rtc.localStream = none) (hlink : peersGet c.rtc.peers p = none) :
    (clientStep props c Event.clickJoin).ctx.callState = CallState.inCall ∧
      self ∈ peerIds (clientStep props c Event.clickJoin).ctx.participants ∧
      (clientStartCallTo props (clientStep props c Event.clickJoin) o p).1.ctx.callState =
        CallState.inCall ∧
      self ∈ peerIds
        (clientStartCallTo props (clientStep props c Event.clickJoin) o p).1.ctx.participants ∧
      (clientStartCallTo props (clientStep props c Event.clickJoin) o p).1.rtc.peers =
        c.rtc.peers ∧
      (clientStartCallTo props (clientStep props c Event.clickJoin) o p).1.rtc.localStream =
        none ∧
      (clientStartCallTo props (clientStep props c Event.clickJoin) o p).2 = [] := by
  have hstep : clientStep props c Event.clickJoin =
      { ctx := joinCall c.ctx props.roomCode self props.username, rtc := c.rtc } := by
    simp [clientStep, step, hsock, hring, handleJoin, applyCall]
  have hself : self ∈ peerIds (joinCall c.ctx props.roomCode self props.username).participants :=
    (mem_peerIds_addParticipant _ self props.username self).2 (Or.inr rfl)
  have hstart : startCallTo props.socket props.roomCode c.rtc o p =
      ({ c.rtc with conns := c.rtc.conns ++ [newPeerConnection],
                    micRequests := c.rtc.micRequests + 1 }, []) := by
    simp [startCallTo, hsock, createPeerConnection, ensureLocalStream, hlink, hnone, hu]
  rw [hstep]
  have hcs : clientStartCallTo props
      { ctx := joinCall c.ctx props.roomCode self props.username, rtc := c.rtc } o p =
      ({ ctx := joinCall c.ctx props.roomCode self props.username,
         rtc := { c.rtc with conns := c.rtc.conns ++ [newPeerConnection],
                             micRequests := c.rtc.micRequests + 1 } }, []) := by
    unfold clientStartCallTo
    rw [hstart]
  rw [hcs]
  exact ⟨rfl, hself, rfl, hself, rfl, hnone, rfl⟩

/-- Witness for C21 (amended): "me" joins alice's call and the microphone is
refused. -/
theorem join_survives_media_failure_witness :
    (clientStep ⟨some "me", "r", "u"⟩
        { ctx := { initial with callState := CallState.ringing, callRoom := some "r",
                                callHost := some "alice", participants := [⟨"A", "alice"⟩] },
          rtc := initialRtc }
        Event.clickJoin).ctx.callState = CallState.inCall :=
  (join_survives_media_failure ⟨some "me", "r", "u"⟩ "me"
      { ctx := { initial with callState := CallState.ringing, callRoom := some "r",
                              callHost := some "alice", participants := [⟨"A", "alice"⟩] },
        rtc := initialRtc }
      { userMedia := none, offer := some "offer", answer := none, setLocalOk := true,
        setRemoteOk := true, addCandidateOk := true }
      "A" rfl rfl rfl rfl rfl).1

/-! ## C22 -/

/-- C22: with a socket present, if link creation (`getUserMedia` rejects),
`createOffer` or `setLocalDescription` fails inside `startCallTo(p)`, the call still
returns, emits no call-offer and leaves the call context (state and roster) as it
was; a `startCallTo(q)` of the same event whose own browser calls succeed still
emits its call-offer to `q`, both when it runs after the failed call and when it
resumes from its suspension in any manager state. -/
theorem negotiation_failure_not_fatal (props : Props) (self : String) (c : Client)
    (o o' : Outcome) (p q : String) (s : MediaStream) (offer : Sdp) (m : Rtc) (k : Pending)
    (hsock : props.socket = some self)
    (hfail : (createPeerConnection c.rtc p o.userMedia).2 = none ∨ o.offer = none ∨
      o.setLocalOk = false)
    (hu : o'.userMedia = some s) (ho : o'.offer = some offer) (hl : o'.setLocalOk = true) :
    (clientStartCallTo props c o p).2 = [] ∧
      (clientStartCallTo props c o p).1.ctx = c.ctx ∧
      (clientStartCallTo props (clientStartCallTo props c o p).1 o' q).2 =
        [Signal.callOffer props.roomCode q offer] ∧
      (clientStartCallTo props (clientStartCallTo props c o p).1 o' q).1.ctx = c.ctx ∧
      (startCallToResume props.roomCode m k o' q).2 =
        [Signal.callOffer props.roomCode q offer] := by
  refine ⟨?_, rfl, ?_, rfl, startCallToResume_good _ m k o' q s offer hu ho hl⟩
  · simp only [clientStartCallTo]
    rw [startCallTo_eq_begin_resume, hsock]
    apply startCallToResume_failed
    rw [← createPeerConnection_eq_begin_resume]
    exact hfail
  · simp only [clientStartCallTo]
    exact startCallTo_good props.socket self props.roomCode _ o' q s offer hsock hu ho hl

/-- Witness for C22: "me" joined a call of A and B; `createOffer` fails for A and
the offer to B is still sent. -/
theorem negotiation_failure_not_fatal_witness :
    (clientStartCallTo ⟨some "me", "r", "u"⟩
        { ctx := { initial with callState := CallState.inCall }, rtc := initialRtc }
        { userMedia := some ⟨"mic", []⟩, offer := none, answer := none, setLocalOk := true,
          setRemoteOk := true, addCandidateOk := true } "A").2 = [] ∧
      (clientStartCallTo ⟨some "me", "r", "u"⟩
        (clientStartCallTo ⟨some "me", "r", "u"⟩
          { ctx := { initial with callState := CallState.inCall }, rtc := initialRtc }
          { userMedia := some ⟨"mic", []⟩, offer := none, answer := none, setLocalOk := true,
            setRemoteOk := true, addCandidateOk := true } "A").1
        { userMedia := some ⟨"mic", []⟩, offer := some "offerB", answer := none,
          setLocalOk := true, setRemoteOk := true, addCandidateOk := true } "B").2 =
        [Signal.callOffer "r" "B" "offerB"] :=
  have h := negotiation_failure_not_fatal ⟨some "me", "r", "u"⟩ "me"
    { ctx := { initial with callState := CallState.inCall }, rtc := initialRtc }
    { userMedia := some ⟨"mic", []⟩, offer := none, answer := none, setLocalOk := true,
      setRemoteOk := true, addCandidateOk := true }
    { userMedia := some ⟨"mic", []⟩, offer := some "offerB", answer := none,
      setLocalOk := true, setRemoteOk := true, addCandidateOk := true }
    "A" "B" ⟨"mic", []⟩ "offerB" initialRtc (Pending.existing 0) rfl (Or.inr (Or.inl rfl))
    rfl rfl rfl
  ⟨h.1, h.2.2.1⟩


/-! ## C23 -/

/-- C23, as stated, fails: the roster of "me" still lists alice when the relay
reports that "me" left and the room is empty; right after the event the links and
the capture are gone but alice is still in the roster, until the reset timer
fires. -/
theorem room_empty_roster_kept_counterexample :
    (clientStep ⟨some "me", "r", "u"⟩
        { ctx := { callState := CallState.inCall, callRoom := some "r", callHost := some "alice",
                   participants := [⟨"A", "alice"⟩, ⟨"me", "u"⟩], isMuted := false,
                   pendingResets := 0 },
          rtc := { remoteStreams := ["sA"],
                   localStream := some ⟨"mic", [⟨"t", TrackKind.audio, true, false⟩]⟩,
                   peers := [("A", 0)], conns := [newPeerConnection], micRequests := 1,
                   released := [] } }
        (Event.callUserLeft "me" "u" true)) =
      { ctx := { callState := CallState.ended, callRoom := none, callHost := none,
                 participants := [⟨"A", "alice"⟩], isMuted := false, pendingResets := 1 },
        rtc := { remoteStreams := [], localStream := none, peers := [],
                 conns := [{ newPeerConnection with closed := true }], micRequests := 1,
                 released := [⟨"mic", [⟨"t", TrackKind.audio, true, true⟩]⟩] } } := by
  decide

/-- C23 (amended): with a socket present, handling call-user-left with a non-empty
peerId and `roomEmpty = true` removes the leaver from the roster and calls
`cleanup` in the same step: right afterwards the roster is the previous roster
without the entries of the leaver, the state is Ended, the link map and the remote
streams are empty, every connection that was in the map is closed and the local
capture is released; the roster is empty once the reset timer has fired. -/
theorem room_empty_teardown (props : Props) (self : String) (c : Client)
    (socketId leftUser : String) (hsock : props.socket = some self) (hne : socketId ≠ "") :
    (clientStep props c (Event.callUserLeft socketId leftUser true)).ctx.participants =
        c.ctx.participants.filter (fun q => q.id != socketId) ∧
      (clientStep props c (Event.callUserLeft socketId leftUser true)).ctx.callState =
        CallState.ended ∧
      (clientStep props c (Event.callUserLeft socketId leftUser true)).rtc.peers = [] ∧
      (clientStep props c (Event.callUserLeft socketId leftUser true)).rtc.remoteStreams = [] ∧
      (clientStep props c (Event.callUserLeft socketId leftUser true)).rtc.localStream = none ∧
      (∀ k i, (k, i) ∈ c.rtc.peers →
        ((clientStep props c (Event.callUserLeft socketId leftUser true)).rtc.conns[i]?).map
            (fun pc => pc.closed) = (c.rtc.conns[i]?).map (fun _ => true)) ∧
      (∀ s, c.rtc.localStream = some s →
        ∃ s' ∈ (clientStep props c (Event.callUserLeft socketId leftUser true)).rtc.released,
          s'.id = s.id ∧ ∀ t ∈ s'.tracks, t.stopped = true) ∧
      (clientStep props (clientStep props c (Event.callUserLeft socketId leftUser true))
        Event.resetTimer).ctx.participants = [] := by
  have hstep : clientStep props c (Event.callUserLeft socketId leftUser true) =
      { ctx := { markEnded { c.ctx with
                   participants := removeParticipant c.ctx.participants socketId } with
                 callHost := none, callRoom := none },
        rtc := cleanup c.rtc } := by
    simp [clientStep, step, hsock, handleUserLeft, hne, applyCall]
  rw [hstep]
  have hc := cleanup_spec c.rtc
  refine ⟨rfl, rfl, hc.1, hc.2.1, hc.2.2.1, hc.2.2.2.2.1, ?_, ?_⟩
  · intro s hs
    rcases hc.2.2.2.2.2 s hs with ⟨s', hs', hid, _, hstop⟩
    exact ⟨s', hs', hid, hstop⟩
  · simp [clientStep, step, fireReset, markEnded, resetCall]

/-- Witness for C23 (amended): the last remote peer of a two-party call leaves. -/
theorem room_empty_teardown_witness :
    "A" ≠ "" ∧
      (clientStep ⟨some "me", "r", "u"⟩
        { ctx := { callState := CallState.inCall, callRoom := some "r", callHost := some "alice",
                   participants := [⟨"A", "alice"⟩, ⟨"me", "u"⟩], isMuted := false,
                   pendingResets := 0 },
          rtc := { initialRtc with peers := [("A", 0)], conns := [newPeerConnection] } }
        (Event.callUserLeft "A" "alice" true)).ctx.participants = [⟨"me", "u"⟩] :=
  ⟨by decide,
   (room_empty_teardown ⟨some "me", "r", "u"⟩ "me"
      { ctx := { callState := CallState.inCall, callRoom := some "r", callHost := some "alice",
                 participants := [⟨"A", "alice"⟩, ⟨"me", "u"⟩], isMuted := false,
                 pendingResets := 0 },
        rtc := { initialRtc with peers := [("A", 0)], conns := [newPeerConnection] } }
      "A" "alice" rfl (by decide)).1.trans (by decide)⟩

/-! ## C24 -/

theorem pendingResets_le_step (props : Props) (s : CallCtx) (e : Event)
    (he : e ≠ Event.resetTimer) : s.pendingResets ≤ (step props s e).1.pendingResets := by
  cases e <;> simp only [step] <;> cases props.socket <;>
    (try simp only [handleIncomingCall, handleExistingCall, handleUserJoined, handleUserLeft,
      handleCallEnded, handleClick, handleJoin, handleLeave, handleToggleMute,
      joinCall, markEnded, toggleMute]) <;>
    (repeat' split) <;>
    first
      | exact Nat.le_refl _
      | exact Nat.le_succ _
      | exact absurd rfl he

/-- C24 (failing input): call-ended puts "me" in Ended with the reset pending;
"me" starts a new call (state Calling, host "u", room "r", call-start emitted);
when the timer fires the new call is wiped: state Idle, room and host null. -/
theorem reset_wipes_new_call :
    run ⟨some "me", "r", "u"⟩ initial [Event.callEnded, Event.clickCallButton] =
        { callState := CallState.calling, callRoom := some "r", callHost := some "u",
          participants := [], isMuted := false, pendingResets := 1 } ∧
      run ⟨some "me", "r", "u"⟩ initial
          [Event.callEnded, Event.clickCallButton, Event.resetTimer] =
        { callState := CallState.idle, callRoom := none, callHost := none,
          participants := [], isMuted := false, pendingResets := 0 } := by
  decide

/-- The defect behind C24 at every state: no relay event and no user action
lowers the number of pending resets, so a reset that is pending when one of them
happens is still pending afterwards, and when it fires the state is Idle with room
null, host null, roster empty and isMuted false, whatever call was going on. -/
theorem reset_timer_never_cancelled (props : Props) (s : CallCtx) (e : Event)
    (hpending : 0 < s.pendingResets) (he : e ≠ Event.resetTimer) :
    0 < (step props s e).1.pendingResets ∧
      (fireReset (step props s e).1).callState = CallState.idle ∧
      (fireReset (step props s e).1).callRoom = none ∧
      (fireReset (step props s e).1).callHost = none ∧
      (fireReset (step props s e).1).participants = [] ∧
      (fireReset (step props s e).1).isMuted = false := by
  have hle := pendingResets_le_step props s e he
  have hpos : 0 < (step props s e).1.pendingResets := Nat.lt_of_lt_of_le hpending hle
  have hne : (step props s e).1.pendingResets ≠ 0 := Nat.pos_iff_ne_zero.1 hpos
  refine ⟨hpos, ?_, ?_, ?_, ?_, ?_⟩ <;> simp [fireReset, hne, resetCall]

/-- An instance: a new call is started while the reset is pending. -/
theorem reset_timer_never_cancelled_witness :
    (fireReset (step ⟨some "me", "r", "u"⟩
        { initial with callState := CallState.ended, pendingResets := 1 }
        Event.clickCallButton).1).callState = CallState.idle :=
  (reset_timer_never_cancelled ⟨some "me", "r", "u"⟩
      { initial with callState := CallState.ended, pendingResets := 1 }
      Event.clickCallButton (by decide) (by decide)).2.1


/-! ## C25 -/

/-- C25 (failing input): on a fresh manager a second `createPeerConnection("B")`
is called while the first awaits `getUserMedia`; both find no entry for B in the
map and no capture.  Two connections exist afterwards, the first call returns
connection 0 and the second connection 1, the map holds only connection 1,
`getUserMedia` was called twice and the first capture "mic" is no longer
referenced. -/
theorem overlapping_calls_make_two_links :
    overlappingCreate initialRtc "B"
        (some ⟨"mic", [⟨"t", TrackKind.audio, true, false⟩]⟩)
        (some ⟨"mic2", [⟨"t2", TrackKind.audio, true, false⟩]⟩) =
      ({ remoteStreams := [],
         localStream := some ⟨"mic2", [⟨"t2", TrackKind.audio, true, false⟩]⟩,
         peers := [("B", 1)],
         conns := [{ newPeerConnection with senders := ["t"], onicecandidate := some "B",
                                            ontrack := true },
                   { newPeerConnection with senders := ["t2"], onicecandidate := some "B",
                                            ontrack := true }],
         micRequests := 2, released := [] },
       some 0, some 1) := by
  decide

/-! ## C26 -/

/-- C26 (failing input): after "me" leaves muted and joins again, and after "me"
mutes before any capture exists, the state is InCall with isMuted true while the
audio track of the capture that was acquired afterwards is enabled. -/
theorem muted_with_live_microphone :
    mutedRejoin.ctx.callState = CallState.inCall ∧
      mutedRejoin.ctx.isMuted = true ∧
      mutedRejoin.rtc.localStream =
        some ⟨"mic2", [⟨"t2", TrackKind.audio, true, false⟩]⟩ ∧
      mutedBeforeCapture.ctx.callState = CallState.inCall ∧
      mutedBeforeCapture.ctx.isMuted = true ∧
      (∃ s, mutedBeforeCapture.rtc.localStream = some s ∧
        ∃ t ∈ s.tracks, t.kind = TrackKind.audio ∧ t.enabled = true) := by
  refine ⟨by decide, by decide, by decide, by decide, by decide, ?_⟩
  exact ⟨⟨"mic", [⟨"t", TrackKind.audio, true, false⟩]⟩, by decide,
    ⟨"t", TrackKind.audio, true, false⟩, by decide, rfl, rfl⟩

/-! ## C27 -/

theorem log2Fuel_spec (fuel : Nat) :
    ∀ n, n ≤ fuel → 0 < n → 2 ^ log2Fuel fuel n ≤ n ∧ n < 2 ^ (log2Fuel fuel n + 1) := by
  induction fuel with
  | zero => intro n h0 hpos; omega
  | succ fuel ih =>
    intro n hle hpos
    unfold log2Fuel
    by_cases h2 : 2 ≤ n
    · rw [if_pos h2]
      have hhalf : n / 2 ≤ fuel := by omega
      have hpos2 : 0 < n / 2 := by omega
      obtain ⟨hlo, hhi⟩ := ih (n / 2) hhalf hpos2
      constructor
      · rw [Nat.pow_succ]
        omega
      · rw [Nat.pow_succ]
        omega
    · rw [if_neg h2]
      have : n = 1 := by omega
      subst this
      decide

theorem floorLog2_spec (n : Nat) (hpos : 0 < n) :
    2 ^ floorLog2 n ≤ n ∧ n < 2 ^ (floorLog2 n + 1) :=
  log2Fuel_spec n n (Nat.le_refl n) hpos

theorem div_le_roundDiv (a b : Nat) : a / b ≤ roundDiv a b := by
  unfold roundDiv
  split
  · exact Nat.le_refl _
  · split
    · exact Nat.le_succ _
    · split
      · exact Nat.le_refl _
      · exact Nat.le_succ _

theorem roundDiv_bounds (a b : Nat) (hb : 0 < b) :
    2 * (b * roundDiv a b) ≤ 2 * a + b ∧ 2 * a ≤ 2 * (b * roundDiv a b) + b := by
  have hdm : b * (a / b) + a % b = a := Nat.div_add_mod a b
  have hr : a % b < b := Nat.mod_lt a hb
  have hs : b * (a / b + 1) = b * (a / b) + b := by rw [Nat.mul_add, Nat.mul_one]
  unfold roundDiv
  split
  · omega
  · split
    · rw [hs]; omega
    · split
      · omega
      · rw [hs]; omega

theorem toDouble_of_lt (n : Nat) (h : n < 2 ^ 53) : toDouble n = n := by
  unfold toDouble
  rw [if_pos h]

theorem le_toDouble (c : Nat) (h : 2 ^ 53 ≤ c) : 2 ^ 53 ≤ toDouble c := by
  have hpos : 0 < c := Nat.lt_of_lt_of_le (by decide) h
  obtain ⟨hlo, hhi⟩ := floorLog2_spec c hpos
  have hL : 53 ≤ floorLog2 c := by
    by_contra hcon
    have h1 : floorLog2 c + 1 ≤ 53 := by omega
    have h2 : 2 ^ (floorLog2 c + 1) ≤ 2 ^ 53 := Nat.pow_le_pow_right (by decide) h1
    omega
  unfold toDouble
  rw [if_neg (by omega)]
  have hsplit : 2 ^ floorLog2 c = 2 ^ 52 * 2 ^ (floorLog2 c - 52) := by
    rw [← Nat.pow_add]
    congr 1
    omega
  have hpow : 0 < 2 ^ (floorLog2 c - 52) := Nat.two_pow_pos _
  have hq : 2 ^ 52 ≤ c / 2 ^ (floorLog2 c - 52) := by
    rw [Nat.le_div_iff_mul_le hpow, ← hsplit]
    exact hlo
  have hR : 2 ^ 52 ≤ roundDiv c (2 ^ (floorLog2 c - 52)) :=
    Nat.le_trans hq (div_le_roundDiv _ _)
  calc 2 ^ 53 ≤ 2 ^ floorLog2 c := Nat.pow_le_pow_right (by decide) hL
    _ = 2 ^ 52 * 2 ^ (floorLog2 c - 52) := hsplit
    _ ≤ roundDiv c (2 ^ (floorLog2 c - 52)) * 2 ^ (floorLog2 c - 52) :=
        Nat.mul_le_mul_right _ hR

theorem eq_of_toDouble_eq (c v : Nat) (hv : v < 2 ^ 53) (h : toDouble c = v) : c = v := by
  by_cases hc : c < 2 ^ 53
  · rw [toDouble_of_lt c hc] at h
    exact h
  · have := le_toDouble c (by omega)
    omega

theorem toDouble_of_pickShortest (v lo hi p c : Nat) (h : pickShortest v lo hi p = some c) :
    toDouble c = v := by
  unfold pickShortest at h
  split at h
  · rename_i hboth
    split at h
    · injection h with h; rw [← h]; exact hboth.1
    · split at h
      · injection h with h; rw [← h]; exact hboth.2
      · split at h
        · injection h with h; rw [← h]; exact hboth.1
        · injection h with h; rw [← h]; exact hboth.2
  · split at h
    · rename_i hlo
      injection h with h; rw [← h]; exact hlo
    · split at h
      · rename_i hhi
        injection h with h; rw [← h]; exact hhi
      · exact absurd h (by simp)

theorem searchShortest_of_lt (v : Nat) (hv : v < 2 ^ 53) : ∀ j, searchShortest v j = v := by
  intro j
  induction j with
  | zero => rfl
  | succ j ih =>
    unfold searchShortest
    split
    · rename_i c hc
      exact eq_of_toDouble_eq c v hv (toDouble_of_pickShortest _ _ _ _ _ hc)
    · exact ih

theorem numberToString_of_lt (v : Nat) (hv : v < 2 ^ 53) :
    numberToString (JsNumber.finite v) = toString v := by
  cases v with
  | zero => rfl
  | succ n =>
    have hs : shortestDecimal (n + 1) = n + 1 := searchShortest_of_lt (n + 1) hv _
    have hlt : n + 1 < 10 ^ 21 := Nat.lt_trans hv (by norm_num)
    simp only [numberToString, hs, if_pos hlt]


theorem floorQuot_sixty (a : Nat) (ha : a < 2 ^ 53) : floorQuot a 60 = a / 60 := by
  unfold floorQuot
  by_cases h0 : a = 0
  · rw [if_pos h0, h0]
  · rw [if_neg h0, if_neg (by omega)]
    have hapos : 0 < a := Nat.pos_of_ne_zero h0
    have hupos : 0 < 60 * 2 ^ 52 / a := Nat.div_pos (by omega) hapos
    obtain ⟨_, hhi⟩ := floorLog2_spec (60 * 2 ^ 52 / a) hupos
    -- the exponent chosen scales the quotient to at least 2^52
    have hscale : ∀ e, e = (if 60 * 2 ^ 52 ≤ a * 2 ^ floorLog2 (60 * 2 ^ 52 / a)
        then floorLog2 (60 * 2 ^ 52 / a) else floorLog2 (60 * 2 ^ 52 / a) + 1) →
        roundDiv (a * 2 ^ e) 60 / 2 ^ e = a / 60 := by
      intro e he
      have hge : 60 * 2 ^ 52 ≤ a * 2 ^ e := by
        by_cases hc : 60 * 2 ^ 52 ≤ a * 2 ^ floorLog2 (60 * 2 ^ 52 / a)
        · rw [if_pos hc] at he
          rw [he]
          exact hc
        · rw [if_neg hc] at he
          rw [he]
          have h1 : 60 * 2 ^ 52 < a * (60 * 2 ^ 52 / a + 1) := Nat.lt_mul_div_succ _ hapos
          have h2 : a * (60 * 2 ^ 52 / a + 1) ≤ a * 2 ^ (floorLog2 (60 * 2 ^ 52 / a) + 1) :=
            Nat.mul_le_mul_left a hhi
          omega
      have hP : 30 < 2 ^ e := by
        by_contra hcon
        have hle : 2 ^ e ≤ 30 := by omega
        have h1 : a * 2 ^ e ≤ a * 30 := Nat.mul_le_mul_left a hle
        omega
      have hb := roundDiv_bounds (a * 2 ^ e) 60 (by decide)
      have hdm : 60 * (a / 60) + a % 60 = a := Nat.div_add_mod a 60
      have hr : a % 60 < 60 := Nat.mod_lt a (by decide)
      have hexp : a * 2 ^ e = 60 * (a / 60 * 2 ^ e) + a % 60 * 2 ^ e := by
        conv_lhs => rw [← hdm]
        rw [Nat.add_mul, Nat.mul_assoc]
      have hY : a % 60 * 2 ^ e ≤ 59 * 2 ^ e := Nat.mul_le_mul_right _ (by omega)
      apply Nat.div_eq_of_lt_le
      · omega
      · rw [Nat.add_mul, Nat.one_mul]
        omega
    exact hscale _ rfl

theorem numberOfNat_of_lt (n : Nat) (h : n < 2 ^ 53) : numberOfNat n = JsNumber.finite n := by
  unfold numberOfNat
  rw [toDouble_of_lt n h, if_pos (Nat.lt_trans h (by norm_num))]

theorem digitChar_value : ∀ k, k < 10 → (Nat.digitChar k).toNat - '0'.toNat = k := by
  decide

theorem padStart_two_digits :
    ∀ r, r < 60 →
      padStart (toString r) 2 "0" = String.mk [Nat.digitChar (r / 10), Nat.digitChar (r % 10)] := by
  decide

theorem formatTime_eq_timerText (sec : Nat) (h : sec < 2 ^ 53) :
    formatTime sec = timerText sec := by
  have hm : sec / 60 < 2 ^ 53 := Nat.lt_of_le_of_lt (Nat.div_le_self _ _) h
  have hr : sec % 60 < 60 := Nat.mod_lt sec (by decide)
  have hs : sec % 60 < 2 ^ 53 := Nat.lt_trans hr (by norm_num)
  simp only [formatTime, timerText, numberOfNat_of_lt sec h, floorDiv, remainder,
    floorQuot_sixty sec h, numberToString_of_lt _ hm, numberToString_of_lt _ hs,
    padStart_two_digits _ hr]

theorem formatDuration_eq_formatTime (n : Nat) : formatDuration n = formatTime n := by
  unfold formatDuration formatTime numberOfNat
  split
  · cases toDouble n <;> rfl
  · rfl

theorem foldl_toDigitsCore (fuel : Nat) :
    ∀ (n : Nat) (ds : List Char), n < fuel →
      (Nat.toDigitsCore 10 fuel n ds).foldl
          (fun acc c => acc * 10 + (c.toNat - '0'.toNat)) 0 =
        ds.foldl (fun acc c => acc * 10 + (c.toNat - '0'.toNat)) n := by
  induction fuel with
  | zero => intro n ds h; exact absurd h (Nat.not_lt_zero n)
  | succ fuel ih =>
    intro n ds h
    simp only [Nat.toDigitsCore]
    have hmod : (Nat.digitChar (n % 10)).toNat - '0'.toNat = n % 10 :=
      digitChar_value (n % 10) (Nat.mod_lt n (by decide))
    by_cases h0 : n / 10 = 0
    · rw [if_pos h0]
      have hn : n % 10 = n := Nat.mod_eq_of_lt (by omega)
      rw [List.foldl_cons, hmod, hn]
      simp
    · rw [if_neg h0]
      have hlt : n / 10 < fuel := by omega
      rw [ih (n / 10) _ hlt, List.foldl_cons, hmod]
      have : n / 10 * 10 + n % 10 = n := by omega
      rw [this]

theorem parseNat_toString (n : Nat) : parseNat (toString n).data = n := by
  have h : (toString n).data = Nat.toDigitsCore 10 (n + 1) n [] := rfl
  rw [h]
  unfold parseNat
  rw [foldl_toDigitsCore (n + 1) n [] (Nat.lt_succ_self n)]
  rfl

theorem timerText_data (sec : Nat) :
    (timerText sec).data =
      (toString (sec / 60)).data ++
        [':', Nat.digitChar (sec % 60 / 10), Nat.digitChar (sec % 60 % 10)] := by
  simp only [timerText, String.data_append]
  simp

theorem parseTime_timerText (sec : Nat) : parseTime (timerText sec) = sec := by
  unfold parseTime
  rw [timerText_data]
  have hlen : ((toString (sec / 60)).data ++
      [':', Nat.digitChar (sec % 60 / 10), Nat.digitChar (sec % 60 % 10)]).length =
      (toString (sec / 60)).data.length + 3 := by simp
  rw [hlen, Nat.add_sub_cancel]
  have htake : ((toString (sec / 60)).data ++
      [':', Nat.digitChar (sec % 60 / 10), Nat.digitChar (sec % 60 % 10)]).take
        (toString (sec / 60)).data.length = (toString (sec / 60)).data := by
    simp
  have hdrop : ((toString (sec / 60)).data ++
      [':', Nat.digitChar (sec % 60 / 10), Nat.digitChar (sec % 60 % 10)]).drop
        ((toString (sec / 60)).data.length + 3 - 2) =
      [Nat.digitChar (sec % 60 / 10), Nat.digitChar (sec % 60 % 10)] := by
    have : (toString (sec / 60)).data.length + 3 - 2 = (toString (sec / 60)).data.length + 1 := by
      omega
    rw [this, List.drop_append]
    rfl
  rw [htake, hdrop, parseNat_toString]
  have hr : sec % 60 < 60 := Nat.mod_lt sec (by decide)
  have h1 := digitChar_value (sec % 60 / 10) (by omega)
  have h0 := digitChar_value (sec % 60 % 10) (by omega)
  simp only [parseNat, List.foldl_cons, List.foldl_nil, h1, h0]
  omega


set_option maxRecDepth 100000 in
/-- C27, as stated, fails: 10^21 is a natural number that is a `Number`;
`formatTime(10^21)` is the text "16666666666666666000:40", while the decimal
rendering of 10^21 div 60 is "16666666666666666666": the quotient is rounded to a
double before it is printed. -/
theorem formatTime_large_counterexample :
    formatTime (10 ^ 21) = "16666666666666666000:40" ∧
      toString (10 ^ 21 / 60) = "16666666666666666666" ∧
      timerText (10 ^ 21) = "16666666666666666666:40" ∧
      formatTime (10 ^ 21) ≠ timerText (10 ^ 21) := by
  decide

/-- C27 (amended): for every natural number `sec` below 2^53, `formatTime(sec)` is
the decimal text of `sec / 60` (read back digit by digit it gives `sec / 60`), a
colon, and the two decimal digits of `sec % 60`, tens first; reading minutes and
seconds back gives `minutes * 60 + seconds = sec`, so `formatTime` is injective on
the naturals below 2^53; and `formatDuration` gives the same text as `formatTime`
on every natural number. -/
theorem formatTime_spec (sec : Nat) (hsafe : sec < 2 ^ 53) :
    formatTime sec =
        toString (sec / 60) ++ ":" ++
          String.mk [Nat.digitChar (sec % 60 / 10), Nat.digitChar (sec % 60 % 10)] ∧
      parseNat (toString (sec / 60)).data = sec / 60 ∧
      (formatTime sec).length = (toString (sec / 60)).length + 3 ∧
      parseTime (formatTime sec) = sec ∧
      (∀ other, other < 2 ^ 53 → formatTime other = formatTime sec → other = sec) ∧
      (∀ n, formatDuration n = formatTime n) := by
  have heq := formatTime_eq_timerText sec hsafe
  refine ⟨heq, parseNat_toString _, ?_, ?_, ?_, formatDuration_eq_formatTime⟩
  · rw [heq]
    simp only [String.length, timerText_data, List.length_append, List.length_cons,
      List.length_nil]
    rfl
  · rw [heq]
    exact parseTime_timerText sec
  · intro other hother h
    rw [heq, formatTime_eq_timerText other hother] at h
    have := congrArg parseTime h
    rwa [parseTime_timerText, parseTime_timerText] at this

/-- Witness for C27 (amended): one hour, two minutes and five seconds. -/
theorem formatTime_spec_witness :
    3725 < 2 ^ 53 ∧ formatTime 3725 = "62:05" ∧ parseTime (formatTime 3725) = 3725 ∧
      formatDuration 3725 = formatTime 3725 :=
  ⟨by decide, (formatTime_spec 3725 (by decide)).1.trans (by decide),
   (formatTime_spec 3725 (by decide)).2.2.2.1,
   (formatTime_spec 3725 (by decide)).2.2.2.2.2 3725⟩

end CallModel
